import Mathlib

/-!
# Verification of the thirtymall-monitor pipeline

Shallow embedding, in Lean 4, of the fetch → extract → diff → notify → persist
pipeline implemented by `monitor.py` (single-keyword mode) and
`monitor_multi.py` (multi-keyword mode), together with proofs of the
testable properties stated in the repository's specification.

Strings are modelled as `List Char` (Python `str` is a sequence of code
points; Lean `Char` is a unicode scalar value).  File contents, record
fields and JSON texts all use this representation.
-/

namespace ThirtyMall

/-- Python strings, modelled as lists of unicode scalar values. -/
abbrev Str := List Char

/-! ## Data model

`monitor.py` builds product dicts with keys
`id, title, price, link, found_at` (in that insertion order);
`monitor_multi.py` additionally inserts `search_name` after `id`. -/

/-- A product record of the single-keyword monitor (`monitor.py`):
`{'id': .., 'title': .., 'price': .., 'link': .., 'found_at': ..}`. -/
structure Product where
  id : Str
  title : Str
  price : Str
  link : Str
  found_at : Str
deriving Repr, DecidableEq

/-- A product record of the multi-keyword monitor (`monitor_multi.py`):
`{'id': .., 'search_name': .., 'title': .., 'price': .., 'link': .., 'found_at': ..}`. -/
structure ProductM where
  id : Str
  search_name : Str
  title : Str
  price : Str
  link : Str
  found_at : Str
deriving Repr, DecidableEq

/-! ## Stable id derivation

Both scripts derive the record id with
`hashlib.md5(<input>.encode()).hexdigest()[:8]`. -/

/-- Hex digit for a value `< 16`, lower case (as produced by `hexdigest`). -/
def hexChar (n : Nat) : Char :=
  Char.ofNat (if n < 10 then 48 + n else 87 + n)

/-- Render a natural number as 8 hex digits (most significant first). -/
def toHex8 (n : Nat) : Str :=
  (List.range 8).map (fun i => hexChar (n / 16 ^ (7 - i) % 16))

/-- Modelled from the spec: stands in for CPython's `hashlib.md5`, whose
implementation is library code outside this repository.  The specification
only requires the id to be "derived deterministically" from its input
string (§3), so the digest is modelled as a fixed pure function of the
UTF-8 input producing an 8-hex-character string, exactly like
`hashlib.md5(s.encode()).hexdigest()[:8]`.  Every property proved about
ids below depends only on `digest8` being a fixed pure function. -/
def digest8 (s : Str) : Str :=
  toHex8 (s.foldl (fun h c => (h * 31 + c.toNat) % 2 ^ 32) 5381)

/-! ## Diff engine

`monitor.py` lines 404-408:
```
def find_new_products(current, previous):
    previous_ids = {p['id'] for p in previous}
    new_products = [p for p in current if p['id'] not in previous_ids]
    return new_products
```
Set membership of Python's `{p['id'] for p in previous}` coincides with
list membership in `previous.map Product.id`. -/

/-- `find_new_products` of `monitor.py` (lines 404-408). -/
def find_new_products (current previous : List Product) : List Product :=
  let previous_ids := previous.map Product.id
  current.filter (fun p => decide (p.id ∉ previous_ids))

/-- The per-search filter of `monitor_multi.py` `main` (line 363):
`new_products = [p for p in products if p['id'] not in previous_ids]`,
where `previous_ids` is the id set of the whole previous snapshot. -/
def filter_new_multi (products : List ProductM) (previous_ids : List Str) :
    List ProductM :=
  products.filter (fun p => decide (p.id ∉ previous_ids))

/-! ## Text handling

Python `str.strip()` / `str.split()` whitespace and `' '.join(s.split())`
normalization, modelled over `List Char`.  (Python's notion of whitespace
also covers rare non-ASCII space code points; the ASCII set modelled here
is the one exercised by the scraped text and by every claim.) -/

/-- The whitespace characters recognised by `str.split()` / `str.strip()`
(space, tab, newline, carriage return, vertical tab, form feed). -/
def isSpaceChar (c : Char) : Bool :=
  c = ' ' || c = '\t' || c = '\n' || c = '\r' ||
    c = Char.ofNat 11 || c = Char.ofNat 12

/-- Python `s.strip()`: drop leading and trailing whitespace. -/
def pyStrip (s : Str) : Str :=
  ((s.dropWhile isSpaceChar).reverse.dropWhile isSpaceChar).reverse

/-- State machine computing `' '.join(s.split())`: `sawWord` records whether
a word character was already emitted, `pend` whether whitespace was seen
since the last word character. -/
def nwsAux (sawWord pend : Bool) : Str → Str
  | [] => []
  | c :: cs =>
    if isSpaceChar c then nwsAux sawWord true cs
    else (if sawWord && pend then [' '] else []) ++ c :: nwsAux true false cs

/-- Python `' '.join(s.split())`: collapse whitespace runs to single spaces
and trim both ends. -/
def normalizeWs (s : Str) : Str := nwsAux false false s

/-- Python `text.split('\n')`. -/
def splitLines (s : Str) : List Str := s.splitOn '\n'

/-! ## Price pattern matching

`re.findall` for the price/discount patterns used by the scripts:
`[\d,]+원`, `₩[\d,]+`, `[\d,]+\s*원` and `\d+%`.  In each pattern the
character class, the optional whitespace run and the terminator are
pairwise disjoint character sets, so greedy matching never backtracks and
leftmost non-overlapping scanning is exactly `re.findall`.  (`\d` and `\s`
are modelled over their ASCII core, the only characters these claims
exercise.) -/

/-- A character matched by `[\d,]`. -/
def isDigitComma (c : Char) : Bool := c.isDigit || c = ','

/-- Generic leftmost non-overlapping scanner for a pattern of the form
`cls+ mid* term` where the character class `cls`, the optional middle
class `mid` and the terminator `term` are pairwise disjoint (true of every
pattern used by the scripts, so greedy matching never backtracks and this
is exactly `re.findall`).  On failure at a position the scan advances one
character.  The fuel argument (instantiated with the input length, an
upper bound on the number of steps) makes the recursion structural. -/
def scanPat (cls mid : Char → Bool) (term : Char) :
    Nat → Str → List Str
  | 0, _ => []
  | _ + 1, [] => []
  | fuel + 1, c :: cs =>
    if cls c then
      let run := c :: List.takeWhile cls cs
      let rest1 := List.dropWhile cls cs
      let wsRun := List.takeWhile mid rest1
      match List.dropWhile mid rest1 with
      | t :: r2 =>
        if t = term then
          (run ++ wsRun ++ [term]) :: scanPat cls mid term fuel r2
        else scanPat cls mid term fuel cs
      | [] => []
    else scanPat cls mid term fuel cs

/-- The empty middle class (matches nothing). -/
def noMid : Char → Bool := fun _ => false

/-- `re.findall(r'[\d,]+원', s)`: leftmost non-overlapping matches. -/
def findall_num_won (s : Str) : List Str :=
  scanPat isDigitComma noMid '원' s.length s

/-- `re.findall(r'[\d,]+\s*원', s)`: leftmost non-overlapping matches. -/
def findall_num_ws_won (s : Str) : List Str :=
  scanPat isDigitComma isSpaceChar '원' s.length s

/-- `re.findall(r'\d+%', s)`: leftmost non-overlapping matches. -/
def findall_pct (s : Str) : List Str :=
  scanPat Char.isDigit noMid '%' s.length s

/-- Scanner for `re.findall(r'₩[\d,]+', s)` (prefix character followed by
a greedy class run), with structural fuel. -/
def scanWon : Nat → Str → List Str
  | 0, _ => []
  | _ + 1, [] => []
  | fuel + 1, c :: cs =>
    if c = '₩' then
      match cs with
      | d :: ds =>
        if isDigitComma d then
          ('₩' :: d :: List.takeWhile isDigitComma ds) ::
            scanWon fuel (List.dropWhile isDigitComma ds)
        else scanWon fuel cs
      | [] => []
    else scanWon fuel cs

/-- `re.findall(r'₩[\d,]+', s)`: leftmost non-overlapping matches. -/
def findall_won_num (s : Str) : List Str := scanWon s.length s

/-- The price-pattern cascade of `monitor.py` (lines 204-213): try
`[\d,]+원`, then `₩[\d,]+`, then `[\d,]+\s*원`; take the first match of the
first pattern that matches at all; otherwise leave the price empty. -/
def re_price_first (text : Str) : Str :=
  match findall_num_won text with
  | m :: _ => m
  | [] =>
    match findall_won_num text with
    | m :: _ => m
    | [] =>
      match findall_num_ws_won text with
      | m :: _ => m
      | [] => []

/-- `any(char in price_text for char in ['원', '₩', ','])` —
the check applied to selector-derived price element text. -/
def hasWonChar (s : Str) : Bool :=
  s.contains '원' || s.contains '₩' || s.contains ','

/-- The selector-based price scan (`monitor.py` lines 183-198): walk the
price selectors in order, take the first matched element whose stripped
text passes the won-character check.  `ps` holds the texts of the elements
the selectors matched, in selector order (selectors that matched no
element contribute nothing). -/
def firstSelectorPrice (ps : List Str) : Str :=
  match (ps.map pyStrip).find? hasWonChar with
  | some t => t
  | none => []

/-! ## Single-keyword extraction (`monitor.py`, `get_products_selenium`)

The DOM is opaque to the scraper; a candidate is the data the script reads
from one matched element: its stripped text, and — when the link/container
search of lines 146-168 succeeded — the container's href, the texts of the
price elements matched by the price selectors, and the container text. -/

/-- The hard-coded keyword `'버터'` of `monitor.py`. -/
def kwButter : Str := ['버', '터']

/-- The product container found for a matched element (lines 146-168):
the element itself when it is an `<a>`, else the first ancestor within five
levels that is an `<a>` or contains one. -/
structure Ctx where
  /-- `link_element.get_attribute('href')` (`none` models Python `None`). -/
  href : Option Str
  /-- Texts of the elements matched by the price selectors of lines
  183-187, in selector order; selectors that matched nothing contribute
  no entry. -/
  selectorPriceTexts : List Str
  /-- `product_container.text`, scanned by the regex fallback. -/
  text : Str
deriving Repr, DecidableEq

/-- One element yielded by the `'버터'` text-node scan (method 1). -/
structure Candidate where
  /-- `element.text` (the script strips it). -/
  text : Str
  /-- The container search result; `none` when no link element was found
  within five ancestor levels (then `link = ""` and no price is looked
  up, and `processed_links` is not consulted). -/
  container : Option Ctx
deriving Repr, DecidableEq

/-- One anchor yielded by the product-link scan (method 2, lines 239-298). -/
structure LinkCand where
  /-- `link_elem.text` (the script strips it). -/
  text : Str
  /-- `link_elem.get_attribute('href')` (`none` models Python `None`;
  the script replaces it by `""`). -/
  href : Option Str
  /-- Whether `link_elem.find_element(By.XPATH, "..")` succeeded; on
  failure the `except: pass` leaves the price empty. -/
  parentFound : Bool
  /-- Texts matched by the price selectors inside the parent. -/
  parentSelectorPriceTexts : List Str
  /-- `parent.text`, scanned by the regex fallback. -/
  parentText : Str
deriving Repr, DecidableEq

/-- Method-1 loop body (`monitor.py` lines 139-235).  State is
`(processed_links, products)`. -/
def step1 (now : Str) (st : List Str × List Product) (cand : Candidate) :
    List Str × List Product :=
  let (processed, products) := st
  let title0 := pyStrip cand.text
  if title0 = [] ∨ ¬ kwButter <:+: title0 then st
  else
    match cand.container with
    | none =>
      -- no link element found: `link` stays `""`, `processed_links` is not
      -- consulted, no price context exists
      let title := (normalizeWs title0).take 200
      let pid := digest8 (title ++ [])
      (processed, products ++ [⟨pid, title, [], [], now⟩])
    | some ctx =>
      let link := ctx.href.getD []
      if link ∈ processed then st
      else
        let processed := link :: processed
        let price0 := firstSelectorPrice ctx.selectorPriceTexts
        let price1 := if price0 = [] then re_price_first ctx.text else price0
        let title := (normalizeWs title0).take 200
        let price := if price1 = [] then [] else normalizeWs price1
        let pid := digest8 (title ++ link)
        (processed, products ++ [⟨pid, title, price, link, now⟩])

/-- Method-2 loop body (`monitor.py` lines 242-298). -/
def step2 (now : Str) (st : List Str × List Product) (cand : LinkCand) :
    List Str × List Product :=
  let (processed, products) := st
  let link_text := pyStrip cand.text
  let link_url := cand.href.getD []
  if kwButter <:+: link_text ∧ link_url ∉ processed then
    let processed := link_url :: processed
    let price :=
      if cand.parentFound then
        let p := firstSelectorPrice cand.parentSelectorPriceTexts
        if p = [] then re_price_first cand.parentText else p
      else []
    let title := (normalizeWs link_text).take 200
    let pid := digest8 (title ++ link_url)
    (processed, products ++ [⟨pid, title, price, link_url, now⟩])
  else st

/-- The extraction portion of `get_products_selenium`: the method-1 scan
over every `'버터'` text node, then — when fewer than 5 products were
found — the method-2 scan over the first 50 product links, sharing the
`processed_links` set. -/
def get_products_selenium_extract (cands1 : List Candidate)
    (cands2 : List LinkCand) (now : Str) : List Product :=
  let st := cands1.foldl (step1 now) ([], [])
  if st.2.length < 5 then ((cands2.take 50).foldl (step2 now) st).2
  else st.2

/-! ## Multi-keyword extraction (`monitor_multi.py`, `get_products`) -/

/-- `"가격 정보 없음"` — the explicit no-price placeholder. -/
def noPriceStr : Str := ['가', '격', ' ', '정', '보', ' ', '없', '음']

/-- One element yielded by the keyword text scan of `monitor_multi.py`
(lines 127-132). -/
structure CandM where
  /-- `elem.text` (the script strips it). -/
  text : Str
  /-- The first truthy `href` found on the first anchor of up to four
  ancestor levels (lines 173-184); `none` when the walk found nothing or
  raised. -/
  foundHref : Option Str
deriving Repr, DecidableEq

/-- One `MuiBox-root` element of the fallback scan (lines 207-209). -/
structure MuiCand where
  /-- `item.text` (not stripped by the script). -/
  text : Str
deriving Repr, DecidableEq

/-- Main loop body of `monitor_multi.py` `get_products` (lines 132-202).
State is `(processed, products)` where `processed` holds raw element
texts. -/
def stepM (name url kwd now : Str) (st : List Str × List ProductM)
    (cand : CandM) : List Str × List ProductM :=
  let (processed, products) := st
  let text := pyStrip cand.text
  if text = [] ∨ text.length < 10 ∨ text ∈ processed then st
  else
    let processed := text :: processed
    let title :=
      match (splitLines text).find? (fun l => decide (kwd <:+: l)) with
      | some l => (pyStrip l).take 200
      | none => []
    if title = [] then (processed, products)
    else
      let price_matches := findall_num_won text
      let price0 :=
        if price_matches.length > 1 then price_matches.getLastD []
        else price_matches.headD []
      let discount := (findall_pct text).headD []
      let price :=
        if discount ≠ [] ∧ price0 ≠ [] then discount ++ ' ' :: price0
        else if price0 = [] then noPriceStr
        else price0
      let link :=
        match cand.foundHref with
        | some h => if h = [] then url else h
        | none => url
      let pid := digest8 (name ++ '_' :: title)
      (processed, products ++ [⟨pid, name, title, price, link, now⟩])

/-- MUI fallback loop body of `monitor_multi.py` (lines 209-244). -/
def stepMui (name url kwd now : Str) (st : List Str × List ProductM)
    (cand : MuiCand) : List Str × List ProductM :=
  let (processed, products) := st
  let text := cand.text
  if kwd <:+: text ∧ text ∉ processed then
    let processed := text :: processed
    let lines := splitLines text
    let title :=
      ((lines.find? (fun l => decide (kwd <:+: l))).getD []).take 200
    if title = [] then (processed, products)
    else
      let discount :=
        match (lines.filter (fun l => l.contains '%')).getLast? with
        | some l => pyStrip l
        | none => []
      let price :=
        match lines.find? (fun l => !l.contains '%' && l.contains '원') with
        | some l => pyStrip l
        | none => []
      let final :=
        if discount ≠ [] ∧ price ≠ [] then discount ++ ' ' :: price
        else if price ≠ [] then price
        else noPriceStr
      let pid := digest8 (name ++ '_' :: title)
      (processed, products ++ [⟨pid, name, title, final, url, now⟩])
  else st

/-- The extraction portion of `monitor_multi.py` `get_products` for one
search config: nothing when the keyword is absent from the page source
(line 120), else the main scan over the first 30 keyword elements, then —
when fewer than 3 products were found — the MUI fallback over the first 20
`MuiBox-root` items, sharing the `processed` set. -/
def get_products_extract (name url kwd : Str) (pageHasKw : Bool)
    (cands : List CandM) (muis : List MuiCand) (now : Str) :
    List ProductM :=
  if !pageHasKw then []
  else
    let st := (cands.take 30).foldl (stepM name url kwd now) ([], [])
    if st.2.length < 3 then
      ((muis.take 20).foldl (stepMui name url kwd now) st).2
    else st.2

/-! ## Helper lemmas: whitespace normalization preserves keyword occurrences -/

/-- `nwsAux true false` copies a whitespace-free block verbatim. -/
theorem nwsAux_nonws_prefix (w v : Str)
    (hw : ∀ c ∈ w, isSpaceChar c = false) :
    nwsAux true false (w ++ v) = w ++ nwsAux true false v := by
  induction w with
  | nil => rfl
  | cons c w ih =>
    have hc : isSpaceChar c = false := hw c (List.mem_cons_self _ _)
    simp only [List.cons_append, nwsAux, hc, Bool.false_eq_true, if_false,
      Bool.and_self, Bool.false_and]
    simp only [Bool.true_and, Bool.false_eq_true, if_false, List.nil_append,
      List.append_eq]
    rw [ih (fun x hx => hw x (List.mem_cons_of_mem _ hx))]

/-- A nonempty, whitespace-free infix survives `' '.join(s.split())`. -/
theorem infix_nwsAux (kw : Str) (hne : kw ≠ [])
    (hkw : ∀ c ∈ kw, isSpaceChar c = false) :
    ∀ (u v : Str) (b p : Bool), kw <:+: nwsAux b p (u ++ kw ++ v) := by
  intro u
  induction u with
  | nil =>
    intro v b p
    obtain ⟨k, kt, rfl⟩ := List.exists_cons_of_ne_nil hne
    have hk : isSpaceChar k = false := hkw k (List.mem_cons_self _ _)
    simp only [List.nil_append, List.cons_append, nwsAux, hk,
      Bool.false_eq_true, if_false]
    have := nwsAux_nonws_prefix kt v
      (fun x hx => hkw x (List.mem_cons_of_mem _ hx))
    simp only [List.append_eq]
    rw [this]
    rcases b && p with _ | _
    · simpa using List.infix_append [] (k :: kt) (nwsAux true false v)
    · simpa using List.infix_append [' '] (k :: kt) (nwsAux true false v)
  | cons c u ih =>
    intro v b p
    by_cases hc : isSpaceChar c = true
    · simpa [nwsAux, hc] using ih v b true
    · simp only [List.cons_append, nwsAux, hc, if_false]
      have h1 : kw <:+: nwsAux true false (u ++ kw ++ v) := ih v true false
      have h2 : kw <:+: c :: nwsAux true false (u ++ kw ++ v) :=
        List.infix_cons h1
      exact h2.trans (List.suffix_append _ _).isInfix

/-- A nonempty, whitespace-free infix survives `' '.join(s.split())`. -/
theorem infix_normalizeWs (kw s : Str) (hne : kw ≠ [])
    (hkw : ∀ c ∈ kw, isSpaceChar c = false) (h : kw <:+: s) :
    kw <:+: normalizeWs s := by
  obtain ⟨u, v, rfl⟩ := h
  exact infix_nwsAux kw hne hkw u v false false

/-- A nonempty, whitespace-free infix survives `dropWhile isSpaceChar`. -/
theorem infix_dropWhile_space (kw s : Str) (hne : kw ≠ [])
    (hkw : ∀ c ∈ kw, isSpaceChar c = false) (h : kw <:+: s) :
    kw <:+: s.dropWhile isSpaceChar := by
  obtain ⟨u, v, rfl⟩ := h
  rw [List.append_assoc, List.dropWhile_append]
  split
  · obtain ⟨k, kt, rfl⟩ := List.exists_cons_of_ne_nil hne
    have hk : isSpaceChar k = false := hkw k (List.mem_cons_self _ _)
    simp only [List.cons_append, List.dropWhile_cons, hk,
      Bool.false_eq_true, if_false]
    exact (List.prefix_append _ _).isInfix
  · rw [← List.append_assoc]
    exact List.infix_append _ _ _

/-- A nonempty, whitespace-free infix survives `s.strip()`. -/
theorem infix_pyStrip (kw s : Str) (hne : kw ≠ [])
    (hkw : ∀ c ∈ kw, isSpaceChar c = false) (h : kw <:+: s) :
    kw <:+: pyStrip s := by
  unfold pyStrip
  have h1 : kw <:+: s.dropWhile isSpaceChar :=
    infix_dropWhile_space kw s hne hkw h
  have h2 : kw.reverse <:+: (s.dropWhile isSpaceChar).reverse :=
    List.reverse_infix.mpr h1
  have hkwr : ∀ c ∈ kw.reverse, isSpaceChar c = false := by
    intro c hc; exact hkw c (List.mem_reverse.mp hc)
  have hner : kw.reverse ≠ [] := by
    simpa using hne
  have h3 : kw.reverse <:+:
      ((s.dropWhile isSpaceChar).reverse).dropWhile isSpaceChar :=
    infix_dropWhile_space _ _ hner hkwr h2
  have h4 := List.reverse_infix.mpr h3
  simpa using h4

/-- Truncation that did not actually cut anything preserves infixes. -/
theorem infix_take_of_short (kw l : Str) (n : Nat) (h : kw <:+: l)
    (hlen : (l.take n).length < n) : kw <:+: l.take n := by
  rw [List.length_take] at hlen
  rw [List.take_of_length_le (by omega)]
  exact h

/-- The two keyword characters are not whitespace. -/
theorem kwButter_nonws : ∀ c ∈ kwButter, isSpaceChar c = false := by
  decide

/-! ## Pass invariants -/

/-- Every record a single-keyword pass appends satisfies this: the id is
the digest of title ++ link, the title is bounded by 200 characters and —
when no truncation happened — still contains the keyword, and the
timestamp is the one of this pass. -/
def GoodS (now : Str) (r : Product) : Prop :=
  r.id = digest8 (r.title ++ r.link) ∧
  r.title.length ≤ 200 ∧
  (r.title.length < 200 → kwButter <:+: r.title) ∧
  r.found_at = now

/-- The analogous invariant for a multi-keyword pass with search name
`name` and keyword `kwd`. -/
def GoodM (name kwd now : Str) (r : ProductM) : Prop :=
  r.id = digest8 (r.search_name ++ '_' :: r.title) ∧
  r.search_name = name ∧
  r.title.length ≤ 200 ∧
  (r.title.length < 200 → kwd <:+: r.title) ∧
  r.found_at = now

/-- Fold lemma: a per-record property preserved by each step holds for
every record of the final product list. -/
theorem foldl_records_inv {α β : Type _}
    (f : (List Str × List α) → β → (List Str × List α)) (Q : α → Prop)
    (hf : ∀ st c, ∀ r ∈ (f st c).2, r ∈ st.2 ∨ Q r) :
    ∀ (cs : List β) (st : List Str × List α), (∀ x ∈ st.2, Q x) →
      ∀ r ∈ (cs.foldl f st).2, Q r := by
  intro cs
  induction cs with
  | nil => exact fun st h r hr => h r hr
  | cons c cs ih =>
    intro st h r hr
    refine ih (f st c) ?_ r hr
    intro x hx
    rcases hf st c x hx with h' | h'
    · exact h x h'
    · exact h'

/-- Fold lemma: a state invariant preserved by each step holds for the
final state. -/
theorem foldl_state_inv {σ β : Type _} (f : σ → β → σ) (I : σ → Prop)
    (hf : ∀ st c, I st → I (f st c)) :
    ∀ (cs : List β) (st : σ), I st → I (cs.foldl f st) := by
  intro cs
  induction cs with
  | nil => exact fun st h => h
  | cons c cs ih => exact fun st h => ih (f st c) (hf st c h)

/-- Records appended by the method-1 step satisfy `GoodS`. -/
theorem step1_mem (now : Str) (st : List Str × List Product)
    (c : Candidate) (r : Product) (hr : r ∈ (step1 now st c).2) :
    r ∈ st.2 ∨ GoodS now r := by
  obtain ⟨processed, products⟩ := st
  unfold step1 at hr
  simp only at hr
  by_cases hskip : pyStrip c.text = [] ∨ ¬ kwButter <:+: pyStrip c.text
  · rw [if_pos hskip] at hr
    exact Or.inl hr
  · rw [if_neg hskip] at hr
    push_neg at hskip
    obtain ⟨hne, hkw⟩ := hskip
    have hinfix : kwButter <:+: normalizeWs (pyStrip c.text) :=
      infix_normalizeWs _ _ (by decide) kwButter_nonws hkw
    match hctx : c.container with
    | none =>
      rw [hctx] at hr
      simp only [List.mem_append, List.mem_singleton] at hr
      rcases hr with hr | hr
      · exact Or.inl hr
      · subst hr
        refine Or.inr ⟨rfl, ?_, ?_, rfl⟩
        · simp [List.length_take]
        · intro hlt
          exact infix_take_of_short _ _ _ hinfix hlt
    | some ctx =>
      rw [hctx] at hr
      simp only at hr
      by_cases hmem : ctx.href.getD [] ∈ processed
      · rw [if_pos hmem] at hr
        exact Or.inl hr
      · rw [if_neg hmem] at hr
        simp only [List.mem_append, List.mem_singleton] at hr
        rcases hr with hr | hr
        · exact Or.inl hr
        · subst hr
          refine Or.inr ⟨rfl, ?_, ?_, rfl⟩
          · simp [List.length_take]
          · intro hlt
            exact infix_take_of_short _ _ _ hinfix hlt

/-- Records appended by the method-2 step satisfy `GoodS`. -/
theorem step2_mem (now : Str) (st : List Str × List Product)
    (c : LinkCand) (r : Product) (hr : r ∈ (step2 now st c).2) :
    r ∈ st.2 ∨ GoodS now r := by
  obtain ⟨processed, products⟩ := st
  unfold step2 at hr
  simp only at hr
  by_cases hif : kwButter <:+: pyStrip c.text ∧ c.href.getD [] ∉ processed
  · rw [if_pos hif] at hr
    simp only [List.mem_append, List.mem_singleton] at hr
    rcases hr with hr | hr
    · exact Or.inl hr
    · subst hr
      have hinfix : kwButter <:+: normalizeWs (pyStrip c.text) :=
        infix_normalizeWs _ _ (by decide) kwButter_nonws hif.1
      refine Or.inr ⟨rfl, ?_, ?_, rfl⟩
      · simp [List.length_take]
      · intro hlt
        exact infix_take_of_short _ _ _ hinfix hlt
  · rw [if_neg hif] at hr
    exact Or.inl hr

/-- Every record of a full single-keyword extraction pass satisfies
`GoodS`. -/
theorem singlePass_good (cands1 : List Candidate) (cands2 : List LinkCand)
    (now : Str) :
    ∀ r ∈ get_products_selenium_extract cands1 cands2 now, GoodS now r := by
  intro r hr
  unfold get_products_selenium_extract at hr
  simp only at hr
  have h1 : ∀ x ∈ (cands1.foldl (step1 now) ([], [])).2, GoodS now x :=
    foldl_records_inv (step1 now) (GoodS now) (step1_mem now) cands1
      ([], []) (by intro x hx; simp at hx)
  by_cases hlen : (cands1.foldl (step1 now) ([], [])).2.length < 5
  · rw [if_pos hlen] at hr
    exact foldl_records_inv (step2 now) (GoodS now) (step2_mem now) _ _ h1 r hr
  · rw [if_neg hlen] at hr
    exact h1 r hr

/-- Records appended by the multi-keyword main step satisfy `GoodM`. -/
theorem stepM_mem (name url kwd now : Str) (hkne : kwd ≠ [])
    (hknws : ∀ c ∈ kwd, isSpaceChar c = false)
    (st : List Str × List ProductM) (c : CandM) (r : ProductM)
    (hr : r ∈ (stepM name url kwd now st c).2) :
    r ∈ st.2 ∨ GoodM name kwd now r := by
  obtain ⟨processed, products⟩ := st
  unfold stepM at hr
  simp only at hr
  by_cases hskip : pyStrip c.text = [] ∨ (pyStrip c.text).length < 10 ∨
      pyStrip c.text ∈ processed
  · rw [if_pos hskip] at hr
    exact Or.inl hr
  · rw [if_neg hskip] at hr
    match hfind : (splitLines (pyStrip c.text)).find?
        (fun l => decide (kwd <:+: l)) with
    | none =>
      rw [hfind] at hr
      simp only [if_pos rfl] at hr
      exact Or.inl hr
    | some l =>
      rw [hfind] at hr
      simp only at hr
      have hl : kwd <:+: l := by
        have := List.find?_some hfind
        simpa using this
      have htitle : kwd <:+: pyStrip l :=
        infix_pyStrip _ _ hkne hknws hl
      by_cases hemp : (pyStrip l).take 200 = []
      · rw [if_pos hemp] at hr
        exact Or.inl hr
      · rw [if_neg hemp] at hr
        simp only [List.mem_append, List.mem_singleton] at hr
        rcases hr with hr | hr
        · exact Or.inl hr
        · subst hr
          refine Or.inr ⟨rfl, rfl, ?_, ?_, rfl⟩
          · simp [List.length_take]
          · intro hlt
            exact infix_take_of_short _ _ _ htitle hlt

/-- Records appended by the MUI fallback step satisfy `GoodM`. -/
theorem stepMui_mem (name url kwd now : Str)
    (st : List Str × List ProductM) (c : MuiCand) (r : ProductM)
    (hr : r ∈ (stepMui name url kwd now st c).2) :
    r ∈ st.2 ∨ GoodM name kwd now r := by
  obtain ⟨processed, products⟩ := st
  unfold stepMui at hr
  simp only at hr
  by_cases hif : kwd <:+: c.text ∧ c.text ∉ processed
  · rw [if_pos hif] at hr
    match hfind : (splitLines c.text).find?
        (fun l => decide (kwd <:+: l)) with
    | none =>
      rw [hfind] at hr
      simp only [Option.getD_none, List.take_nil, if_pos rfl] at hr
      exact Or.inl hr
    | some l =>
      rw [hfind] at hr
      simp only [Option.getD_some] at hr
      have hl : kwd <:+: l := by
        have := List.find?_some hfind
        simpa using this
      by_cases hemp : l.take 200 = []
      · rw [if_pos hemp] at hr
        exact Or.inl hr
      · rw [if_neg hemp] at hr
        simp only [List.mem_append, List.mem_singleton] at hr
        rcases hr with hr | hr
        · exact Or.inl hr
        · subst hr
          refine Or.inr ⟨rfl, rfl, ?_, ?_, rfl⟩
          · simp [List.length_take]
          · intro hlt
            exact infix_take_of_short _ _ _ hl hlt
  · rw [if_neg hif] at hr
    exact Or.inl hr

/-- Every record of a full multi-keyword extraction pass satisfies
`GoodM`. -/
theorem multiPass_good (name url kwd : Str) (ph : Bool)
    (cands : List CandM) (muis : List MuiCand) (now : Str)
    (hkne : kwd ≠ []) (hknws : ∀ c ∈ kwd, isSpaceChar c = false) :
    ∀ r ∈ get_products_extract name url kwd ph cands muis now,
      GoodM name kwd now r := by
  intro r hr
  unfold get_products_extract at hr
  simp only at hr
  cases ph with
  | false => simp at hr
  | true =>
    simp only [Bool.not_true, Bool.false_eq_true, if_false] at hr
    have h1 : ∀ x ∈ ((cands.take 30).foldl (stepM name url kwd now)
        ([], [])).2, GoodM name kwd now x :=
      foldl_records_inv (stepM name url kwd now) (GoodM name kwd now)
        (stepM_mem name url kwd now hkne hknws) _ ([], [])
        (by intro x hx; simp at hx)
    by_cases hlen : ((cands.take 30).foldl (stepM name url kwd now)
        ([], [])).2.length < 3
    · rw [if_pos hlen] at hr
      exact foldl_records_inv (stepMui name url kwd now)
        (GoodM name kwd now) (stepMui_mem name url kwd now) _ _ h1 r hr
    · rw [if_neg hlen] at hr
      exact h1 r hr

/-! ## The actual de-duplication invariant of the single-keyword pass -/

/-- Two records with non-empty links have distinct links. -/
def LinkRel (a b : Product) : Prop :=
  a.link ≠ [] → b.link ≠ [] → a.link ≠ b.link

/-- State invariant of the single-keyword pass: every non-empty link of an
emitted record has been recorded in `processed_links`, and emitted
non-empty links are pairwise distinct. -/
def LinkedInv (st : List Str × List Product) : Prop :=
  (∀ r ∈ st.2, r.link ≠ [] → r.link ∈ st.1) ∧ st.2.Pairwise LinkRel

/-- Appending a record whose link is either empty or fresh preserves
`LinkedInv`-style pairwise distinctness. -/
theorem linkedInv_append (processed : List Str) (products : List Product)
    (r : Product) (h : LinkedInv (processed, products))
    (hnew : r.link = [] ∨ r.link ∉ processed) :
    (products ++ [r]).Pairwise LinkRel := by
  rw [List.pairwise_append]
  refine ⟨h.2, List.pairwise_singleton _ _, ?_⟩
  intro a ha b hb
  simp only [List.mem_singleton] at hb
  subst hb
  intro hal hbl
  rcases hnew with hnew | hnew
  · exact absurd hnew hbl
  · intro heq
    exact hnew (heq ▸ h.1 a ha hal)

/-- The method-1 step preserves `LinkedInv`. -/
theorem step1_linkinv (now : Str) (st : List Str × List Product)
    (c : Candidate) (h : LinkedInv st) : LinkedInv (step1 now st c) := by
  obtain ⟨processed, products⟩ := st
  unfold step1
  simp only
  by_cases hskip : pyStrip c.text = [] ∨ ¬ kwButter <:+: pyStrip c.text
  · rw [if_pos hskip]
    exact h
  · rw [if_neg hskip]
    cases hctx : c.container with
    | none =>
      refine ⟨?_, linkedInv_append processed products _ h (Or.inl rfl)⟩
      intro r hr hrl
      simp only [List.mem_append, List.mem_singleton] at hr
      rcases hr with hr | hr
      · exact h.1 r hr hrl
      · subst hr
        exact absurd rfl hrl
    | some ctx =>
      simp only
      by_cases hmem : ctx.href.getD [] ∈ processed
      · rw [if_pos hmem]
        exact h
      · rw [if_neg hmem]
        refine ⟨?_, linkedInv_append processed products _ h (Or.inr hmem)⟩
        intro r hr hrl
        simp only [List.mem_append, List.mem_singleton] at hr
        rcases hr with hr | hr
        · exact List.mem_cons_of_mem _ (h.1 r hr hrl)
        · subst hr
          exact List.mem_cons_self _ _

/-- The method-2 step preserves `LinkedInv`. -/
theorem step2_linkinv (now : Str) (st : List Str × List Product)
    (c : LinkCand) (h : LinkedInv st) : LinkedInv (step2 now st c) := by
  obtain ⟨processed, products⟩ := st
  unfold step2
  simp only
  by_cases hif : kwButter <:+: pyStrip c.text ∧ c.href.getD [] ∉ processed
  · rw [if_pos hif]
    refine ⟨?_, linkedInv_append processed products _ h (Or.inr hif.2)⟩
    intro r hr hrl
    simp only [List.mem_append, List.mem_singleton] at hr
    rcases hr with hr | hr
    · exact List.mem_cons_of_mem _ (h.1 r hr hrl)
    · subst hr
      exact List.mem_cons_self _ _
  · rw [if_neg hif]
    exact h

/-- In the list a single-keyword pass returns, records with non-empty
links have pairwise-distinct links: the de-duplication actually performed
is by link, not by title. -/
theorem singlePass_links_pairwise (cands1 : List Candidate)
    (cands2 : List LinkCand) (now : Str) :
    (get_products_selenium_extract cands1 cands2 now).Pairwise LinkRel := by
  unfold get_products_selenium_extract
  simp only
  have h0 : LinkedInv ([], ([] : List Product)) := by
    constructor
    · intro r hr; simp at hr
    · exact List.Pairwise.nil
  have h1 : LinkedInv (cands1.foldl (step1 now) ([], [])) :=
    foldl_state_inv (step1 now) LinkedInv (step1_linkinv now) cands1 _ h0
  by_cases hlen : (cands1.foldl (step1 now) ([], [])).2.length < 5
  · rw [if_pos hlen]
    exact (foldl_state_inv (step2 now) LinkedInv (step2_linkinv now)
      _ _ h1).2
  · rw [if_neg hlen]
    exact h1.2

/-! ## Absent-price behaviour -/

/-- When no selector-derived price text passes the won-character check,
the selector scan yields the empty price. -/
theorem firstSelectorPrice_eq_nil (ps : List Str)
    (h : ∀ t ∈ ps, hasWonChar (pyStrip t) = false) :
    firstSelectorPrice ps = [] := by
  unfold firstSelectorPrice
  have : (ps.map pyStrip).find? hasWonChar = none := by
    rw [List.find?_eq_none]
    intro x hx
    obtain ⟨t, ht, rfl⟩ := List.mem_map.mp hx
    simp [h t ht]
  rw [this]

/-- When none of the three currency regexes matches, the regex cascade
yields the empty price. -/
theorem re_price_first_eq_nil (t : Str) (h1 : findall_num_won t = [])
    (h2 : findall_won_num t = []) (h3 : findall_num_ws_won t = []) :
    re_price_first t = [] := by
  unfold re_price_first
  rw [h1, h2, h3]

/-- Method-1 step on a title-viable, unprocessed candidate with no
currency match anywhere: the record is still produced, with empty
price. -/
theorem step1_no_price (now : Str) (processed : List Str)
    (products : List Product) (c : Candidate) (ctx : Ctx)
    (hctx : c.container = some ctx) (hne : pyStrip c.text ≠ [])
    (hkw : kwButter <:+: pyStrip c.text)
    (hfresh : ctx.href.getD [] ∉ processed)
    (hsel : ∀ t ∈ ctx.selectorPriceTexts, hasWonChar (pyStrip t) = false)
    (h1 : findall_num_won ctx.text = [])
    (h2 : findall_won_num ctx.text = [])
    (h3 : findall_num_ws_won ctx.text = []) :
    ∃ r, (step1 now (processed, products) c).2 = products ++ [r] ∧
      r.price = [] := by
  unfold step1
  simp only
  rw [if_neg (not_or.mpr ⟨hne, not_not.mpr hkw⟩), hctx]
  simp only
  rw [if_neg hfresh]
  have hs : firstSelectorPrice ctx.selectorPriceTexts = [] :=
    firstSelectorPrice_eq_nil _ hsel
  have hrp : re_price_first ctx.text = [] :=
    re_price_first_eq_nil _ h1 h2 h3
  refine ⟨_, rfl, ?_⟩
  simp [hs, hrp]

/-- Multi-keyword main step on a viable candidate whose text has no
`[\d,]+원` match: the record is still produced, with the explicit
`"가격 정보 없음"` placeholder. -/
theorem stepM_no_price (name url kwd now : Str) (processed : List Str)
    (products : List ProductM) (c : CandM) (l : Str)
    (hkne : kwd ≠ []) (hknws : ∀ ch ∈ kwd, isSpaceChar ch = false)
    (hne : pyStrip c.text ≠ []) (hlen : ¬ (pyStrip c.text).length < 10)
    (hfresh : pyStrip c.text ∉ processed)
    (hfind : (splitLines (pyStrip c.text)).find?
      (fun ln => decide (kwd <:+: ln)) = some l)
    (hnp : findall_num_won (pyStrip c.text) = []) :
    ∃ r, (stepM name url kwd now (processed, products) c).2 =
      products ++ [r] ∧ r.price = noPriceStr := by
  unfold stepM
  simp only
  rw [if_neg (by push_neg; exact ⟨hne, by omega, hfresh⟩), hfind]
  simp only
  have hl : kwd <:+: l := by simpa using List.find?_some hfind
  have hstrip : kwd <:+: pyStrip l := infix_pyStrip _ _ hkne hknws hl
  have hlne : pyStrip l ≠ [] := by
    intro hnil
    rw [hnil] at hstrip
    exact hkne (List.eq_nil_of_infix_nil hstrip)
  have htne : (pyStrip l).take 200 ≠ [] := by
    intro hc
    rcases List.take_eq_nil_iff.mp hc with h200 | hnil
    · omega
    · exact hlne hnil
  rw [if_neg htne]
  refine ⟨_, rfl, ?_⟩
  simp [hnp, noPriceStr]

/-! ## Id derivation invariants -/

/-- The id of every record of a single-keyword pass is the digest of
`title + link` — line 220 / line 284 of `monitor.py`. -/
theorem singlePass_id (cands1 : List Candidate) (cands2 : List LinkCand)
    (now : Str) :
    ∀ r ∈ get_products_selenium_extract cands1 cands2 now,
      r.id = digest8 (r.title ++ r.link) :=
  fun r hr => (singlePass_good cands1 cands2 now r hr).1

/-- Multi-keyword main step: appended records carry
`id = digest8 (search_name + '_' + title)`. -/
theorem stepM_id (name url kwd now : Str) (st : List Str × List ProductM)
    (c : CandM) (r : ProductM) (hr : r ∈ (stepM name url kwd now st c).2) :
    r ∈ st.2 ∨ r.id = digest8 (r.search_name ++ '_' :: r.title) := by
  obtain ⟨processed, products⟩ := st
  unfold stepM at hr
  simp only at hr
  by_cases hskip : pyStrip c.text = [] ∨ (pyStrip c.text).length < 10 ∨
      pyStrip c.text ∈ processed
  · rw [if_pos hskip] at hr
    exact Or.inl hr
  · rw [if_neg hskip] at hr
    match hfind : (splitLines (pyStrip c.text)).find?
        (fun l => decide (kwd <:+: l)) with
    | none =>
      rw [hfind] at hr
      simp only [if_pos rfl] at hr
      exact Or.inl hr
    | some l =>
      rw [hfind] at hr
      simp only at hr
      by_cases hemp : (pyStrip l).take 200 = []
      · rw [if_pos hemp] at hr
        exact Or.inl hr
      · rw [if_neg hemp] at hr
        simp only [List.mem_append, List.mem_singleton] at hr
        rcases hr with hr | hr
        · exact Or.inl hr
        · subst hr
          exact Or.inr rfl

/-- MUI fallback step: appended records carry
`id = digest8 (search_name + '_' + title)`. -/
theorem stepMui_id (name url kwd now : Str) (st : List Str × List ProductM)
    (c : MuiCand) (r : ProductM)
    (hr : r ∈ (stepMui name url kwd now st c).2) :
    r ∈ st.2 ∨ r.id = digest8 (r.search_name ++ '_' :: r.title) := by
  obtain ⟨processed, products⟩ := st
  unfold stepMui at hr
  simp only at hr
  by_cases hif : kwd <:+: c.text ∧ c.text ∉ processed
  · rw [if_pos hif] at hr
    match hfind : (splitLines c.text).find?
        (fun l => decide (kwd <:+: l)) with
    | none =>
      rw [hfind] at hr
      simp only [Option.getD_none, List.take_nil, if_pos rfl] at hr
      exact Or.inl hr
    | some l =>
      rw [hfind] at hr
      simp only [Option.getD_some] at hr
      by_cases hemp : l.take 200 = []
      · rw [if_pos hemp] at hr
        exact Or.inl hr
      · rw [if_neg hemp] at hr
        simp only [List.mem_append, List.mem_singleton] at hr
        rcases hr with hr | hr
        · exact Or.inl hr
        · subst hr
          exact Or.inr rfl
  · rw [if_neg hif] at hr
    exact Or.inl hr

/-- The id of every record of a multi-keyword pass is the digest of
`search_name + '_' + title` — lines 187 / 233 of `monitor_multi.py`. -/
theorem multiPass_id (name url kwd : Str) (ph : Bool) (cands : List CandM)
    (muis : List MuiCand) (now : Str) :
    ∀ r ∈ get_products_extract name url kwd ph cands muis now,
      r.id = digest8 (r.search_name ++ '_' :: r.title) := by
  intro r hr
  unfold get_products_extract at hr
  simp only at hr
  cases ph with
  | false => simp at hr
  | true =>
    simp only [Bool.not_true, Bool.false_eq_true, if_false] at hr
    have h1 : ∀ x ∈ ((cands.take 30).foldl (stepM name url kwd now)
        ([], [])).2, x.id = digest8 (x.search_name ++ '_' :: x.title) :=
      foldl_records_inv (stepM name url kwd now) _
        (stepM_id name url kwd now) _ ([], []) (by intro x hx; simp at hx)
    by_cases hlen : ((cands.take 30).foldl (stepM name url kwd now)
        ([], [])).2.length < 3
    · rw [if_pos hlen] at hr
      exact foldl_records_inv (stepMui name url kwd now) _
        (stepMui_id name url kwd now) _ _ h1 r hr
    · rw [if_neg hlen] at hr
      exact h1 r hr

/-- Default records (used to pick concrete elements out of pass results in
closed witness statements). -/
def dfltP : Product := ⟨[], [], [], [], []⟩

/-- Default multi-keyword record. -/
def dfltPM : ProductM := ⟨[], [], [], [], [], []⟩

end ThirtyMall

namespace ThirtyMall

/-- **C1.** The diff operation — `find_new_products` in single-keyword mode
and the per-search filter of `monitor_multi.py` — returns exactly those
records of the current list whose `id` does not occur among the ids of the
previous snapshot, in the same relative order as in the current list
(stated as: the result is a sublist of the current list, and membership is
characterised exactly).  Both operations are pure Lean functions, so
neither input list is modified. -/
theorem C1_diff_exact (current previous : List Product)
    (products : List ProductM) (previous_ids : List Str) :
    (find_new_products current previous).Sublist current ∧
    (∀ p, p ∈ find_new_products current previous ↔
      p ∈ current ∧ p.id ∉ previous.map Product.id) ∧
    (filter_new_multi products previous_ids).Sublist products ∧
    (∀ p, p ∈ filter_new_multi products previous_ids ↔
      p ∈ products ∧ p.id ∉ previous_ids) := by
  refine ⟨List.filter_sublist _, ?_, List.filter_sublist _, ?_⟩ <;>
    intro p <;> simp [find_new_products, filter_new_multi, List.mem_filter]

/-- **C3.** The product id is a pure, deterministic function of
`(title, link)` in single-keyword mode and of `(searchName, title)` in
multi-keyword mode: every record of every pass carries
`id = digest8 (title ++ link)` (resp. `digest8 (search_name ++ "_" ++
title)`), and any two records — from any two runs, with any timestamps,
prices or page contents — whose pairs agree receive the same id. -/
theorem C3_id_pure (cands1 : List Candidate) (cands2 : List LinkCand)
    (now : Str) (name url kwd : Str) (ph : Bool) (cands : List CandM)
    (muis : List MuiCand) (nowM : Str) :
    (∀ r ∈ get_products_selenium_extract cands1 cands2 now,
      r.id = digest8 (r.title ++ r.link)) ∧
    (∀ r ∈ get_products_extract name url kwd ph cands muis nowM,
      r.id = digest8 (r.search_name ++ '_' :: r.title)) ∧
    (∀ (c1 : List Candidate) (c2 : List LinkCand) (n1 : Str)
        (c1' : List Candidate) (c2' : List LinkCand) (n2 : Str)
        (r1 r2 : Product),
      r1 ∈ get_products_selenium_extract c1 c2 n1 →
      r2 ∈ get_products_selenium_extract c1' c2' n2 →
      r1.title = r2.title → r1.link = r2.link → r1.id = r2.id) ∧
    (∀ (na1 u1 k1 : Str) (p1 : Bool) (cs1 : List CandM)
        (m1 : List MuiCand) (n1 : Str) (na2 u2 k2 : Str) (p2 : Bool)
        (cs2 : List CandM) (m2 : List MuiCand) (n2 : Str)
        (r1 r2 : ProductM),
      r1 ∈ get_products_extract na1 u1 k1 p1 cs1 m1 n1 →
      r2 ∈ get_products_extract na2 u2 k2 p2 cs2 m2 n2 →
      r1.search_name = r2.search_name → r1.title = r2.title →
      r1.id = r2.id) := by
  refine ⟨singlePass_id cands1 cands2 now,
    multiPass_id name url kwd ph cands muis nowM, ?_, ?_⟩
  · intro c1 c2 n1 c1' c2' n2 r1 r2 h1 h2 ht hl
    rw [singlePass_id c1 c2 n1 r1 h1, singlePass_id c1' c2' n2 r2 h2,
      ht, hl]
  · intro na1 u1 k1 p1 cs1 m1 n1 na2 u2 k2 p2 cs2 m2 n2 r1 r2 h1 h2 hs ht
    rw [multiPass_id na1 u1 k1 p1 cs1 m1 n1 r1 h1,
      multiPass_id na2 u2 k2 p2 cs2 m2 n2 r2 h2, hs, ht]

/-- Witness for C3: two concrete runs with different candidate lists and
different timestamps yield the same id for records with the same
`(title, link)` pair. -/
theorem C3_id_pure_witness :
    ((get_products_selenium_extract [⟨kwButter, none⟩] [] ['a']).headD
        dfltP).id =
      ((get_products_selenium_extract [⟨kwButter, none⟩, ⟨['x'], none⟩] []
        ['b']).headD dfltP).id :=
  (C3_id_pure [] [] [] [] [] [] false [] [] []).2.2.1
    [⟨kwButter, none⟩] [] ['a'] [⟨kwButter, none⟩, ⟨['x'], none⟩] [] ['b']
    _ _ (by decide) (by decide) (by decide) (by decide)

set_option maxRecDepth 100000 in
/-- **C4, counterexample.** A candidate whose only keyword occurrence
starts after the 200th character of the normalized title yields a record
whose stored (truncated) title does not contain the keyword, refuting the
claim that every produced title still contains it after truncation. -/
theorem C4_counterexample :
    ∃ r ∈ get_products_selenium_extract
      [⟨List.replicate 200 'a' ++ kwButter, none⟩] [] [],
      ¬ kwButter <:+: r.title := by decide

/-- **C4, amended.** Every record of an extraction pass has a title of at
most 200 characters, and whenever the stored title is shorter than 200
characters (i.e. the 200-character truncation did not cut anything) it
still contains the target keyword.  (The raw extracted text always
contains the keyword — that is checked before normalization — but the
truncation can cut the only occurrence off, as the counterexample
shows.) -/
theorem C4_title_bounded_keyword :
    (∀ (cands1 : List Candidate) (cands2 : List LinkCand) (now : Str),
      ∀ r ∈ get_products_selenium_extract cands1 cands2 now,
        r.title.length ≤ 200 ∧
          (r.title.length < 200 → kwButter <:+: r.title)) ∧
    (∀ (name url kwd : Str) (ph : Bool) (cands : List CandM)
        (muis : List MuiCand) (now : Str), kwd ≠ [] →
      (∀ ch ∈ kwd, isSpaceChar ch = false) →
      ∀ r ∈ get_products_extract name url kwd ph cands muis now,
        r.title.length ≤ 200 ∧ (r.title.length < 200 → kwd <:+: r.title)) := by
  constructor
  · intro c1 c2 now r hr
    obtain ⟨_, h2, h3, _⟩ := singlePass_good c1 c2 now r hr
    exact ⟨h2, h3⟩
  · intro name url kwd ph cands muis now h1 h2 r hr
    obtain ⟨_, _, h3, h4, _⟩ :=
      multiPass_good name url kwd ph cands muis now h1 h2 r hr
    exact ⟨h3, h4⟩

/-- Witness for C4 (amended): a concrete record of a concrete pass. -/
theorem C4_title_bounded_keyword_witness :
    ((get_products_selenium_extract [⟨kwButter, none⟩] [] []).headD
        dfltP).title.length ≤ 200 ∧
      (((get_products_selenium_extract [⟨kwButter, none⟩] [] []).headD
        dfltP).title.length < 200 →
        kwButter <:+:
          ((get_products_selenium_extract [⟨kwButter, none⟩] [] []).headD
            dfltP).title) :=
  C4_title_bounded_keyword.1 [⟨kwButter, none⟩] [] [] _ (by decide)

/-- **C5.** A title-viable, not-yet-deduplicated extraction candidate whose
price context matches no currency pattern (no selector-derived text passes
the won-character check and none of the three regexes matches; in
multi-keyword mode: `[\d,]+원` has no match) is still turned into a
record — never dropped — and its price is the explicit placeholder:
`""` in single-keyword mode, `"가격 정보 없음"` in multi-keyword mode. -/
theorem C5_no_price_placeholder :
    (∀ (now : Str) (processed : List Str) (products : List Product)
        (c : Candidate) (ctx : Ctx), c.container = some ctx →
      pyStrip c.text ≠ [] → kwButter <:+: pyStrip c.text →
      ctx.href.getD [] ∉ processed →
      (∀ t ∈ ctx.selectorPriceTexts, hasWonChar (pyStrip t) = false) →
      findall_num_won ctx.text = [] → findall_won_num ctx.text = [] →
      findall_num_ws_won ctx.text = [] →
      ∃ r, (step1 now (processed, products) c).2 = products ++ [r] ∧
        r.price = []) ∧
    (∀ (name url kwd now : Str) (processed : List Str)
        (products : List ProductM) (c : CandM) (l : Str), kwd ≠ [] →
      (∀ ch ∈ kwd, isSpaceChar ch = false) →
      pyStrip c.text ≠ [] → ¬ (pyStrip c.text).length < 10 →
      pyStrip c.text ∉ processed →
      (splitLines (pyStrip c.text)).find?
        (fun ln => decide (kwd <:+: ln)) = some l →
      findall_num_won (pyStrip c.text) = [] →
      ∃ r, (stepM name url kwd now (processed, products) c).2 =
        products ++ [r] ∧ r.price = noPriceStr) :=
  ⟨fun now pr ps c ctx hctx hne hkw hf hsel h1 h2 h3 =>
    step1_no_price now pr ps c ctx hctx hne hkw hf hsel h1 h2 h3,
  fun name url kwd now pr ps c l hkne hknws hne hlen hf hfind hnp =>
    stepM_no_price name url kwd now pr ps c l hkne hknws hne hlen hf
      hfind hnp⟩

/-- Witness for C5: concrete priceless candidates in both modes. -/
theorem C5_no_price_placeholder_witness :
    (∃ r, (step1 [] ([], []) ⟨kwButter, some ⟨none, [], []⟩⟩).2 =
      [] ++ [r] ∧ r.price = []) ∧
    (∃ r, (stepM ['n'] ['u'] kwButter [] ([], [])
        ⟨kwButter ++ ['a', 'b', 'c', 'd', 'e', 'f', 'g', 'h'], none⟩).2 =
      [] ++ [r] ∧ r.price = noPriceStr) :=
  ⟨C5_no_price_placeholder.1 [] [] [] ⟨kwButter, some ⟨none, [], []⟩⟩
      ⟨none, [], []⟩ rfl (by decide) (by decide) (by decide) (by decide)
      (by decide) (by decide) (by decide),
  C5_no_price_placeholder.2 ['n'] ['u'] kwButter [] [] []
      ⟨kwButter ++ ['a', 'b', 'c', 'd', 'e', 'f', 'g', 'h'], none⟩
      (kwButter ++ ['a', 'b', 'c', 'd', 'e', 'f', 'g', 'h'])
      (by decide) (by decide) (by decide) (by decide) (by decide)
      (by decide) (by decide)⟩

/-- **C10, counterexample.** Two candidates with equal titles and no
enclosing link both produce records (no collapse — de-duplication is by
link, and link-less candidates bypass it), and the two records share the
same id: the returned list does contain two records with the same id. -/
theorem C10_counterexample :
    (get_products_selenium_extract [⟨kwButter, none⟩, ⟨kwButter, none⟩]
      [] []).length = 2 ∧
    ¬ ((get_products_selenium_extract [⟨kwButter, none⟩, ⟨kwButter, none⟩]
      [] []).map Product.id).Nodup := by decide

/-- **C10, amended.** Within one extraction pass, de-duplication is by
resolved link (single-keyword mode) and by raw container text
(multi-keyword mode), not by title: in single-keyword mode any two
returned records with non-empty links have distinct links, and in both
modes any two records of a pass agreeing on the id inputs — `(title,
link)` resp. `(search_name, title)` — carry the same id; duplicate ids can
occur (two link-less candidates with the same title, see the
counterexample). -/
theorem C10_dedup_by_link :
    (∀ (cands1 : List Candidate) (cands2 : List LinkCand) (now : Str),
      (get_products_selenium_extract cands1 cands2 now).Pairwise LinkRel) ∧
    (∀ (cands1 : List Candidate) (cands2 : List LinkCand) (now : Str)
        (r1 r2 : Product),
      r1 ∈ get_products_selenium_extract cands1 cands2 now →
      r2 ∈ get_products_selenium_extract cands1 cands2 now →
      r1.title = r2.title → r1.link = r2.link → r1.id = r2.id) ∧
    (∀ (name url kwd : Str) (ph : Bool) (cands : List CandM)
        (muis : List MuiCand) (now : Str) (r1 r2 : ProductM),
      r1 ∈ get_products_extract name url kwd ph cands muis now →
      r2 ∈ get_products_extract name url kwd ph cands muis now →
      r1.search_name = r2.search_name → r1.title = r2.title →
      r1.id = r2.id) := by
  refine ⟨singlePass_links_pairwise, ?_, ?_⟩
  · intro c1 c2 now r1 r2 h1 h2 ht hl
    rw [singlePass_id c1 c2 now r1 h1, singlePass_id c1 c2 now r2 h2,
      ht, hl]
  · intro name url kwd ph cands muis now r1 r2 h1 h2 hs ht
    rw [multiPass_id name url kwd ph cands muis now r1 h1,
      multiPass_id name url kwd ph cands muis now r2 h2, hs, ht]

/-- Witness for C10 (amended): concrete pass, concrete records. -/
theorem C10_dedup_by_link_witness :
    ((get_products_selenium_extract [⟨kwButter, none⟩] [] []).headD
        dfltP).id =
      ((get_products_selenium_extract [⟨kwButter, none⟩] [] []).headD
        dfltP).id :=
  C10_dedup_by_link.2.1 [⟨kwButter, none⟩] [] [] _ _ (by decide)
    (by decide) (by decide) (by decide)

end ThirtyMall

namespace ThirtyMall

/-! ## JSON

`monitor.py` persists its records with `json.dump(products, f,
ensure_ascii=False, indent=2)` and reads them back with `json.load`.
Both are CPython library code outside this repository; they are modelled
here by a full (de)serializer for the JSON value language:
`dumps` renders a value exactly as `json.dump(..., ensure_ascii=False,
indent=2)` does, and `parseJson` accepts the JSON grammar that
`json.load` accepts (including the non-standard `NaN`/`Infinity`
constants; number tokens are kept as lexemes; the sole divergence is that
lone-surrogate `\uXXXX` escapes, which CPython accepts into unpaired
surrogate strings, are rejected here because unpaired surrogates are not
representable as unicode scalar values). -/

/-- A JSON value.  Numbers keep their source lexeme (no claim inspects
numeric values, only the shape of the data). -/
inductive Json where
  | null
  | bool (b : Bool)
  | num (lex : Str)
  | str (s : Str)
  | arr (elems : List Json)
  | obj (members : List (Str × Json))
deriving Repr

/-- Is the value a JSON array (a Python `list` after `json.load`)? -/
def isJsonList : Json → Bool
  | .arr _ => true
  | _ => false

/-- `json.dump` escaping of one character with `ensure_ascii=False`:
only `"`, `\` and control characters are escaped. -/
def escChar (c : Char) : Str :=
  if c = '"' then ['\\', '"']
  else if c = '\\' then ['\\', '\\']
  else if c = '\n' then ['\\', 'n']
  else if c = '\t' then ['\\', 't']
  else if c = '\r' then ['\\', 'r']
  else if c = Char.ofNat 8 then ['\\', 'b']
  else if c = Char.ofNat 12 then ['\\', 'f']
  else if c.toNat < 32 then
    ['\\', 'u', '0', '0', hexChar (c.toNat / 16), hexChar (c.toNat % 16)]
  else [c]

/-- `json.dump` escaping of a string body. -/
def escString : Str → Str
  | [] => []
  | c :: cs => escChar c ++ escString cs

/-- The newline-plus-indentation separator `json.dump(..., indent=2)`
emits before an item at nesting level `lvl`. -/
def nlIndent (lvl : Nat) : Str := '\n' :: List.replicate (2 * lvl) ' '

mutual

/-- Render a JSON value exactly as `json.dump(v, f, ensure_ascii=False,
indent=2)` does at nesting level `lvl`. -/
def dumpVal : Json → Nat → Str
  | .null, _ => ['n', 'u', 'l', 'l']
  | .bool true, _ => ['t', 'r', 'u', 'e']
  | .bool false, _ => ['f', 'a', 'l', 's', 'e']
  | .num lex, _ => lex
  | .str s, _ => '"' :: escString s ++ ['"']
  | .arr [], _ => ['[', ']']
  | .arr (x :: xs), lvl =>
    '[' :: nlIndent (lvl + 1) ++ dumpVal x (lvl + 1) ++
      dumpArrRest xs (lvl + 1) ++ nlIndent lvl ++ [']']
  | .obj [], _ => ['{', '}']
  | .obj (kv :: kvs), lvl =>
    '{' :: nlIndent (lvl + 1) ++ dumpMember kv (lvl + 1) ++
      dumpObjRest kvs (lvl + 1) ++ nlIndent lvl ++ ['}']

/-- Remaining array items, each preceded by `",\n" + indent`. -/
def dumpArrRest : List Json → Nat → Str
  | [], _ => []
  | x :: xs, lvl => ',' :: nlIndent lvl ++ dumpVal x lvl ++ dumpArrRest xs lvl

/-- One object member: `"key": value`. -/
def dumpMember : Str × Json → Nat → Str
  | (k, v), lvl => '"' :: escString k ++ ['"', ':', ' '] ++ dumpVal v lvl

/-- Remaining object members, each preceded by `",\n" + indent`. -/
def dumpObjRest : List (Str × Json) → Nat → Str
  | [], _ => []
  | kv :: kvs, lvl =>
    ',' :: nlIndent lvl ++ dumpMember kv lvl ++ dumpObjRest kvs lvl

end

/-- Top-level `json.dump` output. -/
def dumps (v : Json) : Str := dumpVal v 0

/-- JSON inter-token whitespace. -/
def jWs (c : Char) : Bool := c = ' ' || c = '\t' || c = '\n' || c = '\r'

/-- Skip inter-token whitespace. -/
def skipWs (s : Str) : Str := s.dropWhile jWs

/-- Value of one hex digit. -/
def hexVal (c : Char) : Option Nat :=
  if 48 ≤ c.toNat ∧ c.toNat ≤ 57 then some (c.toNat - 48)
  else if 97 ≤ c.toNat ∧ c.toNat ≤ 102 then some (c.toNat - 87)
  else if 65 ≤ c.toNat ∧ c.toNat ≤ 70 then some (c.toNat - 55)
  else none

/-- Parse the body of a JSON string literal (after the opening quote) up
to and including the closing quote, decoding escapes; returns the decoded
string and the rest of the input.  `fuel` (instantiated with the input
length plus one, a bound on the number of steps) makes the recursion
structural.  Control characters are rejected (`json.load` is strict), and
`\uXXXX` surrogate pairs are combined. -/
def parseStrBody : Nat → Str → Option (Str × Str)
  | 0, _ => none
  | _ + 1, [] => none
  | fuel + 1, c :: cs =>
    if c = '"' then some ([], cs)
    else if c = '\\' then
      match cs with
      | [] => none
      | e :: r =>
        if e = '"' then
          (parseStrBody fuel r).map (fun p => ('"' :: p.1, p.2))
        else if e = '\\' then
          (parseStrBody fuel r).map (fun p => ('\\' :: p.1, p.2))
        else if e = '/' then
          (parseStrBody fuel r).map (fun p => ('/' :: p.1, p.2))
        else if e = 'n' then
          (parseStrBody fuel r).map (fun p => ('\n' :: p.1, p.2))
        else if e = 't' then
          (parseStrBody fuel r).map (fun p => ('\t' :: p.1, p.2))
        else if e = 'r' then
          (parseStrBody fuel r).map (fun p => ('\r' :: p.1, p.2))
        else if e = 'b' then
          (parseStrBody fuel r).map (fun p => (Char.ofNat 8 :: p.1, p.2))
        else if e = 'f' then
          (parseStrBody fuel r).map (fun p => (Char.ofNat 12 :: p.1, p.2))
        else if e = 'u' then
          match r with
          | h1 :: h2 :: h3 :: h4 :: r4 =>
            match hexVal h1, hexVal h2, hexVal h3, hexVal h4 with
            | some v1, some v2, some v3, some v4 =>
              let code := ((v1 * 16 + v2) * 16 + v3) * 16 + v4
              if 55296 ≤ code ∧ code < 56320 then
                -- high surrogate: require a following low-surrogate escape
                match r4 with
                | '\\' :: 'u' :: g1 :: g2 :: g3 :: g4 :: r10 =>
                  match hexVal g1, hexVal g2, hexVal g3, hexVal g4 with
                  | some w1, some w2, some w3, some w4 =>
                    let lo := ((w1 * 16 + w2) * 16 + w3) * 16 + w4
                    if 56320 ≤ lo ∧ lo < 57344 then
                      (parseStrBody fuel r10).map (fun p =>
                        (Char.ofNat (65536 + (code - 55296) * 1024 +
                          (lo - 56320)) :: p.1, p.2))
                    else none
                  | _, _, _, _ => none
                | _ => none
              else if 56320 ≤ code ∧ code < 57344 then none
              else (parseStrBody fuel r4).map (fun p =>
                (Char.ofNat code :: p.1, p.2))
            | _, _, _, _ => none
          | _ => none
        else none
    else if c.toNat < 32 then none
    else (parseStrBody fuel cs).map (fun p => (c :: p.1, p.2))

/-- Lex a JSON number at the head of the input
(`-?(0|[1-9]\d*)(\.\d+)?([eE][+-]?\d+)?`), returning the lexeme. -/
def parseNum (s : Str) : Option (Str × Str) :=
  let (sign, s1) :=
    match s with
    | '-' :: t => (['-'], t)
    | _ => ([], s)
  match s1 with
  | c :: cs =>
    if c = '0' ∨ ¬ c.isDigit then
      if c = '0' then
        let (frac, s2) := lexFrac cs
        some (sign ++ ['0'] ++ frac, s2)
      else none
    else
      let digs := List.takeWhile Char.isDigit cs
      let (frac, s2) := lexFrac (List.dropWhile Char.isDigit cs)
      some (sign ++ c :: digs ++ frac, s2)
  | [] => none
where
  /-- Optional fraction and exponent. -/
  lexFrac (s : Str) : Str × Str :=
    let (fracPart, s1) :=
      match s with
      | '.' :: d :: t =>
        if d.isDigit then
          ('.' :: d :: List.takeWhile Char.isDigit t,
            List.dropWhile Char.isDigit t)
        else ([], s)
      | _ => ([], s)
    match s1 with
    | e :: t =>
      if e = 'e' ∨ e = 'E' then
        match t with
        | g :: t2 =>
          if g = '+' ∨ g = '-' then
            match t2 with
            | d :: t3 =>
              if d.isDigit then
                (fracPart ++ e :: g :: d :: List.takeWhile Char.isDigit t3,
                  List.dropWhile Char.isDigit t3)
              else (fracPart, s1)
            | [] => (fracPart, s1)
          else if g.isDigit then
            (fracPart ++ e :: g :: List.takeWhile Char.isDigit t2,
              List.dropWhile Char.isDigit t2)
          else (fracPart, s1)
        | [] => (fracPart, s1)
      else (fracPart, s1)
    | [] => (fracPart, s1)

/-- Parser mode: a plain value, the items of an array after `[`, or the
members of an object after `{` (with the items accepted so far). -/
inductive PMode where
  | val
  | arrItems (acc : List Json)
  | objItems (acc : List (Str × Json))

/-- The JSON parser, defused into a single fuel-indexed function so that
the recursion is structural.  Accepts exactly what CPython's `json.load`
accepts (with the lone-surrogate exception noted above): leading
whitespace, strings, numbers, `true`/`false`/`null`, the non-standard
`NaN`/`Infinity`/`-Infinity` constants, arrays and objects. -/
def parseF : Nat → PMode → Str → Option (Json × Str)
  | 0, _, _ => none
  | fuel + 1, .val, s =>
    match skipWs s with
    | [] => none
    | c :: cs =>
      if c = '"' then
        (parseStrBody (cs.length + 1) cs).map (fun p => (.str p.1, p.2))
      else if c = '{' then
        match skipWs cs with
        | '}' :: r => some (.obj [], r)
        | t => parseF fuel (.objItems []) t
      else if c = '[' then
        match skipWs cs with
        | ']' :: r => some (.arr [], r)
        | t => parseF fuel (.arrItems []) t
      else if c = 't' then
        match cs with
        | 'r' :: 'u' :: 'e' :: r => some (.bool true, r)
        | _ => none
      else if c = 'f' then
        match cs with
        | 'a' :: 'l' :: 's' :: 'e' :: r => some (.bool false, r)
        | _ => none
      else if c = 'n' then
        match cs with
        | 'u' :: 'l' :: 'l' :: r => some (.null, r)
        | _ => none
      else if c = 'N' then
        match cs with
        | 'a' :: 'N' :: r => some (.num ['N', 'a', 'N'], r)
        | _ => none
      else if c = 'I' then
        match cs with
        | 'n' :: 'f' :: 'i' :: 'n' :: 'i' :: 't' :: 'y' :: r =>
          some (.num ['I', 'n', 'f', 'i', 'n', 'i', 't', 'y'], r)
        | _ => none
      else if c = '-' then
        match cs with
        | 'I' :: 'n' :: 'f' :: 'i' :: 'n' :: 'i' :: 't' :: 'y' :: r =>
          some (.num ['-', 'I', 'n', 'f', 'i', 'n', 'i', 't', 'y'], r)
        | _ => (parseNum (c :: cs)).map (fun p => (.num p.1, p.2))
      else
        (parseNum (c :: cs)).map (fun p => (.num p.1, p.2))
  | fuel + 1, .arrItems acc, s =>
    match parseF fuel .val s with
    | none => none
    | some (v, rest) =>
      match skipWs rest with
      | ',' :: r2 => parseF fuel (.arrItems (acc ++ [v])) r2
      | ']' :: r2 => some (.arr (acc ++ [v]), r2)
      | _ => none
  | fuel + 1, .objItems acc, s =>
    match skipWs s with
    | '"' :: cs =>
      match parseStrBody (cs.length + 1) cs with
      | none => none
      | some (k, rest) =>
        match skipWs rest with
        | ':' :: r2 =>
          match parseF fuel .val r2 with
          | none => none
          | some (v, r3) =>
            match skipWs r3 with
            | ',' :: r4 => parseF fuel (.objItems (acc ++ [(k, v)])) r4
            | '}' :: r4 => some (.obj (acc ++ [(k, v)]), r4)
            | _ => none
        | _ => none
    | _ => none

/-- `json.loads`: parse one JSON document; trailing non-whitespace is an
error.  The fuel `2 * length + 4` bounds the parser's step count (each
step either consumes input or descends into a value that consumes at
least one character). -/
def parseJson (s : Str) : Option Json :=
  match parseF (2 * s.length + 4) .val s with
  | some (v, rest) => if skipWs rest = [] then some v else none
  | none => none

/-! ## Snapshot store -/

/-- The state of the snapshot file. -/
inductive FS where
  /-- No file exists (`FileNotFoundError` / `os.path.exists` false). -/
  | missing
  /-- The file exists but reading raises (covered by the generic
  `except`). -/
  | unreadable
  /-- The file exists and reading yields this text. -/
  | content (s : Str)
deriving Repr, DecidableEq

/-- `load_previous_products` of `monitor.py` (lines 385-394): return the
parsed JSON value; on `FileNotFoundError` return `[]`; any other
exception (unreadable file, `json.JSONDecodeError`) is caught by the
generic `except` and also yields `[]`.  Total — never raises. -/
def load_previous_products (fs : FS) : Json :=
  match fs with
  | .missing => .arr []
  | .unreadable => .arr []
  | .content s =>
    match parseJson s with
    | some v => v
    | none => .arr []

/-- `load_previous_products` of `monitor_multi.py` (lines 253-261):
`os.path.exists` guard, then `json.load` under a bare `except: pass`,
falling through to `return []`.  Behaviourally identical to the
single-keyword version. -/
def load_previous_products_multi (fs : FS) : Json :=
  match fs with
  | .missing => .arr []
  | .unreadable => .arr []
  | .content s =>
    match parseJson s with
    | some v => v
    | none => .arr []

/-- JSON object keys used by the single-keyword records. -/
def kId : Str := ['i', 'd']

/-- `"title"`. -/
def kTitle : Str := ['t', 'i', 't', 'l', 'e']

/-- `"price"`. -/
def kPrice : Str := ['p', 'r', 'i', 'c', 'e']

/-- `"link"`. -/
def kLink : Str := ['l', 'i', 'n', 'k']

/-- `"found_at"`. -/
def kFoundAt : Str := ['f', 'o', 'u', 'n', 'd', '_', 'a', 't']

/-- The JSON object `json.dump` serializes for one product dict of
`monitor.py`, keys in insertion order. -/
def encodeProduct (p : Product) : Json :=
  .obj [(kId, .str p.id), (kTitle, .str p.title), (kPrice, .str p.price),
    (kLink, .str p.link), (kFoundAt, .str p.found_at)]

/-- `save_current_products` of `monitor.py` (lines 396-402): overwrite the
snapshot file with `json.dump(products, f, ensure_ascii=False,
indent=2)`.  (A failing write is caught and only logged; the model covers
the successful write.) -/
def save_current_products (products : List Product) (_fs : FS) : FS :=
  .content (dumps (.arr (products.map encodeProduct)))

/-- Look a key up in a parsed JSON object, as `p['id']` etc. does. -/
def jget (kvs : List (Str × Json)) (k : Str) : Option Json :=
  (kvs.find? (fun kv => decide (kv.1 = k))).map Prod.snd

/-- Read a JSON value as a string. -/
def asStr : Option Json → Option Str
  | some (.str s) => some s
  | _ => none

/-- Read one parsed record back field-for-field. -/
def decodeProduct (j : Json) : Option Product :=
  match j with
  | .obj kvs =>
    match asStr (jget kvs kId), asStr (jget kvs kTitle),
        asStr (jget kvs kPrice), asStr (jget kvs kLink),
        asStr (jget kvs kFoundAt) with
    | some i, some t, some pr, some l, some f =>
      some ⟨i, t, pr, l, f⟩
    | _, _, _, _, _ => none
  | _ => none

/-- Read a whole snapshot back field-for-field. -/
def decodeProducts (j : Json) : Option (List Product) :=
  match j with
  | .arr js => js.mapM decodeProduct
  | _ => none

/-! ## Round-trip: the parser inverts the serializer on record arrays -/

/-- `skipWs` eats a run of spaces. -/
theorem skipWs_replicate_space (n : Nat) (t : Str) :
    skipWs (List.replicate n ' ' ++ t) = skipWs t := by
  induction n with
  | zero => rfl
  | succ m ih =>
    rw [List.replicate_succ, List.cons_append]
    show skipWs (' ' :: (List.replicate m ' ' ++ t)) = skipWs t
    rw [← ih]
    simp [skipWs, List.dropWhile_cons, jWs]

/-- `skipWs` eats the `indent=2` separator. -/
theorem skipWs_nlIndent (lvl : Nat) (t : Str) :
    skipWs (nlIndent lvl ++ t) = skipWs t := by
  unfold nlIndent
  rw [List.cons_append]
  show skipWs ('\n' :: (List.replicate (2 * lvl) ' ' ++ t)) = skipWs t
  rw [show skipWs ('\n' :: (List.replicate (2 * lvl) ' ' ++ t)) =
      skipWs (List.replicate (2 * lvl) ' ' ++ t) by
    simp [skipWs, List.dropWhile_cons, jWs]]
  exact skipWs_replicate_space _ _

/-- `skipWs` stops at a non-whitespace character. -/
theorem skipWs_cons_notWs (c : Char) (t : Str) (h : jWs c = false) :
    skipWs (c :: t) = c :: t := by
  simp [skipWs, List.dropWhile_cons, h]

/-- Hex digits emitted by `hexChar` read back to their value. -/
theorem hexVal_hexChar : ∀ n, n < 16 → hexVal (hexChar n) = some n := by
  decide

/-- The `\u00XX` escapes emitted for control characters read back to the
escaped character. -/
theorem parseStrBody_unicode (n : Nat) (hn : n < 32) (f : Nat)
    (tail : Str) :
    parseStrBody (f + 1) ('\\' :: 'u' :: '0' :: '0' ::
      hexChar (n / 16) :: hexChar (n % 16) :: tail) =
    (parseStrBody f tail).map (fun p => (Char.ofNat n :: p.1, p.2)) := by
  interval_cases n <;> rfl

/-- The string-literal parser inverts `json.dump` escaping. -/
theorem parseStrBody_escString (s : Str) :
    ∀ (rest : Str) (fuel : Nat), (escString s).length < fuel →
      parseStrBody fuel (escString s ++ '"' :: rest) = some (s, rest) := by
  induction s with
  | nil =>
    intro rest fuel hfuel
    obtain ⟨f, rfl⟩ : ∃ f, fuel = f + 1 := ⟨fuel - 1, by omega⟩
    simp [escString, parseStrBody]
  | cons c cs ih =>
    intro rest fuel hfuel
    rw [show escString (c :: cs) = escChar c ++ escString cs from rfl] at *
    obtain ⟨f, rfl⟩ : ∃ f, fuel = f + 1 := ⟨fuel - 1, by omega⟩
    have hlen : (escString cs).length < f := by
      have h1 : 1 ≤ (escChar c).length := by
        unfold escChar
        repeat' split
        all_goals simp
      simp [List.length_append] at hfuel
      omega
    by_cases h1 : c = '"'
    · subst h1
      rw [show escChar '"' = ['\\', '"'] from rfl]
      simp only [List.cons_append, List.nil_append, parseStrBody]
      simp [ih (rest) f hlen]
    · by_cases h2 : c = '\\'
      · subst h2
        rw [show escChar '\\' = ['\\', '\\'] from rfl]
        simp only [List.cons_append, List.nil_append, parseStrBody]
        simp [ih rest f hlen]
      · by_cases h3 : c = '\n'
        · subst h3
          rw [show escChar '\n' = ['\\', 'n'] from rfl]
          simp only [List.cons_append, List.nil_append, parseStrBody]
          simp [ih rest f hlen]
        · by_cases h4 : c = '\t'
          · subst h4
            rw [show escChar '\t' = ['\\', 't'] from rfl]
            simp only [List.cons_append, List.nil_append, parseStrBody]
            simp [ih rest f hlen]
          · by_cases h5 : c = '\r'
            · subst h5
              rw [show escChar '\r' = ['\\', 'r'] from rfl]
              simp only [List.cons_append, List.nil_append, parseStrBody]
              simp [ih rest f hlen]
            · by_cases h6 : c = Char.ofNat 8
              · subst h6
                rw [show escChar (Char.ofNat 8) = ['\\', 'b'] by
                  unfold escChar; decide]
                simp only [List.cons_append, List.nil_append, parseStrBody]
                simp [ih rest f hlen]
              · by_cases h7 : c = Char.ofNat 12
                · subst h7
                  rw [show escChar (Char.ofNat 12) = ['\\', 'f'] by
                    unfold escChar; decide]
                  simp only [List.cons_append, List.nil_append, parseStrBody]
                  simp [ih rest f hlen]
                · by_cases h8 : c.toNat < 32
                  · rw [show escChar c = ['\\', 'u', '0', '0',
                        hexChar (c.toNat / 16), hexChar (c.toNat % 16)] by
                      unfold escChar
                      rw [if_neg h1, if_neg h2, if_neg h3, if_neg h4,
                        if_neg h5, if_neg h6, if_neg h7, if_pos h8]]
                    simp only [List.append_eq, List.cons_append,
                      List.nil_append]
                    rw [parseStrBody_unicode c.toNat h8 f
                      (escString cs ++ '"' :: rest)]
                    rw [ih rest f hlen]
                    simp [Char.ofNat_toNat]
                  · rw [show escChar c = [c] by
                      unfold escChar
                      rw [if_neg h1, if_neg h2, if_neg h3, if_neg h4,
                        if_neg h5, if_neg h6, if_neg h7, if_neg h8]]
                    simp only [List.cons_append, List.nil_append,
                      List.append_eq, parseStrBody]
                    rw [if_neg h1, if_neg h2, if_neg (by omega)]
                    rw [ih rest f hlen]
                    rfl

/-- `skipWs` eats a single space. -/
theorem skipWs_cons_space (t : Str) : skipWs (' ' :: t) = skipWs t := by
  simp [skipWs, List.dropWhile_cons, jWs]

/-- The value parser accepts a serialized string literal. -/
theorem parseF_val_str (v : Str) (s0 rest : Str) (fuel : Nat)
    (hfuel : 1 ≤ fuel)
    (hs : skipWs s0 = '"' :: (escString v ++ '"' :: rest)) :
    parseF fuel .val s0 = some (.str v, rest) := by
  obtain ⟨f, rfl⟩ : ∃ f, fuel = f + 1 := ⟨fuel - 1, by omega⟩
  simp only [parseF]
  rw [hs]
  simp only [if_pos rfl]
  rw [parseStrBody_escString v rest _
    (by simp [List.length_append]; omega)]
  rfl

/-- The object-member parser accepts a serialized run of string-valued
members followed by the closing separator and brace. -/
theorem parseF_objItems_strs :
    ∀ (kvs : List (Str × Str)) (k v : Str) (acc : List (Str × Json))
      (lvl lvl' : Nat) (rest s0 : Str) (fuel : Nat),
      2 * kvs.length + 2 ≤ fuel →
      skipWs s0 = '"' :: (escString k ++ '"' :: ':' :: ' ' :: '"' ::
        (escString v ++ '"' ::
          (dumpObjRest (kvs.map (fun kv => (kv.1, Json.str kv.2))) lvl ++
            (nlIndent lvl' ++ '}' :: rest)))) →
      parseF fuel (.objItems acc) s0 =
        some (.obj (acc ++ (k, .str v) ::
          kvs.map (fun kv => (kv.1, Json.str kv.2))), rest) := by
  intro kvs
  induction kvs with
  | nil =>
    intro k v acc lvl lvl' rest s0 fuel hfuel hs
    obtain ⟨f, rfl⟩ : ∃ f, fuel = f + 1 := ⟨fuel - 1, by omega⟩
    simp only [parseF]
    rw [hs]
    simp only [List.map_nil, dumpObjRest, List.nil_append]
    rw [parseStrBody_escString k _ _ (by simp [List.length_append]; omega)]
    simp only
    rw [skipWs_cons_notWs ':' _ (by decide)]
    simp only
    rw [parseF_val_str v _ (nlIndent lvl' ++ '}' :: rest) f (by omega)
      (by rw [skipWs_cons_space, skipWs_cons_notWs '"' _ (by decide)])]
    simp only
    rw [skipWs_nlIndent, skipWs_cons_notWs '}' _ (by decide)]
    rfl
  | cons hd tl ih =>
    intro k v acc lvl lvl' rest s0 fuel hfuel hs
    obtain ⟨f, rfl⟩ : ∃ f, fuel = f + 1 := ⟨fuel - 1, by omega⟩
    simp only [parseF]
    rw [hs]
    simp only [List.map_cons, dumpObjRest, dumpMember, dumpVal,
      List.append_assoc, List.cons_append, List.nil_append]
    rw [parseStrBody_escString k _ _ (by simp [List.length_append]; omega)]
    simp only
    rw [skipWs_cons_notWs ':' _ (by decide)]
    simp only
    rw [parseF_val_str v _ _ f (by omega)
      (by rw [skipWs_cons_space, skipWs_cons_notWs '"' _ (by decide)])]
    simp only
    rw [skipWs_cons_notWs ',' _ (by decide)]
    simp only
    refine (ih hd.1 hd.2 (acc ++ [(k, .str v)]) lvl lvl' rest _ f ?_
      ?_).trans ?_
    · simp only [List.length_cons] at hfuel
      omega
    · rw [skipWs_nlIndent, skipWs_cons_notWs '"' _ (by decide)]
    · simp

/-- The value parser accepts one serialized product record. -/
theorem parseF_val_product (p : Product) (lvl : Nat) (rest s0 : Str)
    (fuel : Nat) (hfuel : 12 ≤ fuel)
    (hs : skipWs s0 = dumpVal (encodeProduct p) lvl ++ rest) :
    parseF fuel .val s0 = some (encodeProduct p, rest) := by
  obtain ⟨f, rfl⟩ : ∃ f, fuel = f + 1 := ⟨fuel - 1, by omega⟩
  simp only [parseF]
  rw [hs]
  simp only [encodeProduct, dumpVal, dumpMember,
    List.append_assoc, List.cons_append, List.nil_append]
  rw [if_pos trivial]
  rw [skipWs_nlIndent, skipWs_cons_notWs '"' _ (by decide)]
  refine (parseF_objItems_strs
    [(kTitle, p.title), (kPrice, p.price), (kLink, p.link),
      (kFoundAt, p.found_at)] kId p.id [] (lvl + 1) lvl rest _ f
    (by simp only [List.length_cons, List.length_nil]; omega) ?_).trans ?_
  · rw [skipWs_cons_notWs '"' _ (by decide)]
    simp [List.append_assoc]
  · simp [encodeProduct]

/-- A serialized product starts with `{`, so `skipWs` leaves it alone. -/
theorem skipWs_dump_product (q : Product) (lvl : Nat) (X : Str) :
    skipWs (dumpVal (encodeProduct q) lvl ++ X) =
      dumpVal (encodeProduct q) lvl ++ X := by
  simp only [encodeProduct, dumpVal, List.cons_append]
  rw [skipWs_cons_notWs '{' _ (by decide)]

/-- The array-item parser accepts a serialized run of product records
followed by the closing separator and bracket. -/
theorem parseF_arrItems_products :
    ∀ (ps : List Product) (p : Product) (acc : List Json)
      (lvl lvl' : Nat) (rest s0 : Str) (fuel : Nat),
      14 * ps.length + 14 ≤ fuel →
      skipWs s0 = dumpVal (encodeProduct p) lvl ++
        (dumpArrRest (ps.map encodeProduct) lvl ++
          (nlIndent lvl' ++ ']' :: rest)) →
      parseF fuel (.arrItems acc) s0 =
        some (.arr (acc ++ encodeProduct p :: ps.map encodeProduct),
          rest) := by
  intro ps
  induction ps with
  | nil =>
    intro p acc lvl lvl' rest s0 fuel hfuel hs
    obtain ⟨f, rfl⟩ : ∃ f, fuel = f + 1 := ⟨fuel - 1, by omega⟩
    simp only [parseF]
    have hs' : skipWs s0 = dumpVal (encodeProduct p) lvl ++
        (nlIndent lvl' ++ ']' :: rest) := by
      simpa [dumpArrRest] using hs
    rw [parseF_val_product p lvl _ s0 f (by omega) hs']
    simp only
    rw [skipWs_nlIndent, skipWs_cons_notWs ']' _ (by decide)]
    simp
  | cons q qs ih =>
    intro p acc lvl lvl' rest s0 fuel hfuel hs
    obtain ⟨f, rfl⟩ : ∃ f, fuel = f + 1 := ⟨fuel - 1, by omega⟩
    simp only [parseF]
    rw [parseF_val_product p lvl _ s0 f (by omega) hs]
    simp only [List.map_cons, dumpArrRest, List.append_assoc,
      List.cons_append, List.nil_append]
    rw [skipWs_cons_notWs ',' _ (by decide)]
    simp only
    refine (ih q (acc ++ [encodeProduct p]) lvl lvl' rest _ f ?_
      ?_).trans ?_
    · simp only [List.length_cons] at hfuel
      omega
    · rw [skipWs_nlIndent]
      exact skipWs_dump_product q lvl _
    · simp

/-- A serialized product is at least 12 characters long. -/
theorem dump_product_len (p : Product) (lvl : Nat) :
    12 ≤ (dumpVal (encodeProduct p) lvl).length := by
  simp only [encodeProduct, dumpVal, dumpMember, dumpObjRest, nlIndent,
    kId, kTitle, kPrice, kLink, kFoundAt, List.length_append,
    List.length_cons, List.length_replicate, List.length_nil]
  omega

/-- The serialized remainder of a product array is at least 13 characters
per product. -/
theorem dump_arrRest_len (ps : List Product) (lvl : Nat) :
    13 * ps.length ≤ (dumpArrRest (ps.map encodeProduct) lvl).length := by
  induction ps with
  | nil => simp [dumpArrRest]
  | cons q qs ih =>
    have h1 := dump_product_len q lvl
    simp only [List.map_cons, dumpArrRest, List.length_cons,
      List.length_append, nlIndent, List.length_replicate]
    omega

/-- The parser inverts the serializer on product arrays. -/
theorem parseJson_dumps_products (l : List Product) :
    parseJson (dumps (.arr (l.map encodeProduct))) =
      some (.arr (l.map encodeProduct)) := by
  cases l with
  | nil =>
    rw [show dumps (.arr (List.map encodeProduct [])) = ['[', ']'] by
      simp [dumps, dumpVal]]
    rfl
  | cons p ps =>
    have hdump : dumps (.arr ((p :: ps).map encodeProduct)) =
        '[' :: (nlIndent 1 ++ (dumpVal (encodeProduct p) 1 ++
          (dumpArrRest (ps.map encodeProduct) 1 ++
            (nlIndent 0 ++ (']' :: []))))) := by
      simp [dumps, dumpVal, List.append_assoc]
    have hhead : dumpVal (encodeProduct p) 1 ++
        (dumpArrRest (ps.map encodeProduct) 1 ++
          (nlIndent 0 ++ (']' :: []))) =
        '{' :: (nlIndent 2 ++ (dumpMember (kId, .str p.id) 2 ++
          (dumpObjRest [(kTitle, .str p.title), (kPrice, .str p.price),
            (kLink, .str p.link), (kFoundAt, .str p.found_at)] 2 ++
          (nlIndent 1 ++ ('}' :: (dumpArrRest (ps.map encodeProduct) 1 ++
            (nlIndent 0 ++ (']' :: [])))))))) := by
      simp [encodeProduct, dumpVal, List.append_assoc]
    have key : parseF
        (2 * (dumps (Json.arr ((p :: ps).map encodeProduct))).length + 4)
        .val (dumps (Json.arr ((p :: ps).map encodeProduct))) =
        some (.arr ((p :: ps).map encodeProduct), []) := by
      rw [hdump]
      set s := '[' :: (nlIndent 1 ++ (dumpVal (encodeProduct p) 1 ++
        (dumpArrRest (ps.map encodeProduct) 1 ++
          (nlIndent 0 ++ (']' :: []))))) with hsdef
      obtain ⟨f, hf⟩ : ∃ f, 2 * s.length + 4 = f + 1 :=
        ⟨2 * s.length + 3, by omega⟩
      have hlen : 14 * ps.length + 14 ≤ f := by
        have h1 := dump_product_len p 1
        have h2 := dump_arrRest_len ps 1
        have h3 : s.length = 1 + (nlIndent 1).length +
            (dumpVal (encodeProduct p) 1).length +
            (dumpArrRest (ps.map encodeProduct) 1).length +
            (nlIndent 0).length + 1 := by
          rw [hsdef]
          simp [List.length_append]
          omega
        simp only [nlIndent, List.length_cons, List.length_replicate] at h3
        omega
      rw [hf]
      simp only [parseF]
      rw [show skipWs s = s from by
        rw [hsdef]; exact skipWs_cons_notWs '[' _ (by decide)]
      rw [hsdef]
      simp only [Char.reduceEq, reduceIte]
      rw [skipWs_nlIndent, skipWs_dump_product p 1 _]
      rw [hhead]
      refine (parseF_arrItems_products ps p [] 1 0 [] _ f hlen
        ?_).trans (by simp)
      rw [skipWs_cons_notWs '{' _ (by decide), ← hhead]
    unfold parseJson
    rw [key]
    rfl

/-- Decoding inverts encoding on one record. -/
theorem decodeProduct_encodeProduct (p : Product) :
    decodeProduct (encodeProduct p) = some p := rfl

/-- Decoding inverts encoding on record lists. -/
theorem decodeProducts_encode (l : List Product) :
    decodeProducts (.arr (l.map encodeProduct)) = some l := by
  induction l with
  | nil => rfl
  | cons p ps ih =>
    have ih' : (ps.map encodeProduct).mapM decodeProduct = some ps := ih
    simp only [List.map_cons, decodeProducts, List.mapM_cons,
      decodeProduct_encodeProduct, ih']
    rfl

end ThirtyMall

namespace ThirtyMall

/-- **C6, counterexample.** A readable snapshot file holding the valid
JSON document `5` is parsed successfully and returned as-is by
`load_previous_products`: the function returns the number 5, not a list,
refuting "returns a list ... for every file-system state". -/
theorem C6_counterexample :
    load_previous_products (.content ['5']) = .num ['5'] ∧
    isJsonList (load_previous_products (.content ['5'])) = false :=
  ⟨rfl, rfl⟩

/-- **C6, amended.** `load_previous_products` (both scripts) is total —
every exception path is caught — and returns the empty list whenever the
snapshot file is missing, unreadable, or fails to parse; when the file
parses, the parsed JSON value is returned as-is (so the result is a list
exactly when the file holds a JSON array; a file holding `5` comes back
as the number 5). -/
theorem C6_load_total (fs : FS) :
    (fs = .missing → load_previous_products fs = .arr [] ∧
      load_previous_products_multi fs = .arr []) ∧
    (fs = .unreadable → load_previous_products fs = .arr [] ∧
      load_previous_products_multi fs = .arr []) ∧
    (∀ s, fs = .content s → parseJson s = none →
      load_previous_products fs = .arr [] ∧
      load_previous_products_multi fs = .arr []) ∧
    (∀ s v, fs = .content s → parseJson s = some v →
      load_previous_products fs = v ∧
      load_previous_products_multi fs = v) := by
  refine ⟨?_, ?_, ?_, ?_⟩
  · rintro rfl
    exact ⟨rfl, rfl⟩
  · rintro rfl
    exact ⟨rfl, rfl⟩
  · rintro s rfl hp
    constructor <;>
      simp [load_previous_products, load_previous_products_multi, hp]
  · rintro s v rfl hp
    constructor <;>
      simp [load_previous_products, load_previous_products_multi, hp]

/-- Witness for C6 (amended): the missing-file state. -/
theorem C6_load_total_witness :
    load_previous_products .missing = .arr [] ∧
    load_previous_products_multi .missing = .arr [] :=
  (C6_load_total .missing).1 rfl

/-- **C7.** Saving any record list with `save_current_products` and then
loading with `load_previous_products` yields the list back: the loaded
value is a JSON array, and reading it field-for-field (id, title, price,
link, found_at per position) reproduces exactly the saved records. -/
theorem C7_save_load_roundtrip (l : List Product) (fs : FS) :
    isJsonList (load_previous_products (save_current_products l fs)) =
      true ∧
    decodeProducts (load_previous_products (save_current_products l fs)) =
      some l := by
  have hload : load_previous_products (save_current_products l fs) =
      .arr (l.map encodeProduct) := by
    show (match parseJson (dumps (Json.arr (l.map encodeProduct))) with
      | some v => v
      | none => Json.arr []) = Json.arr (l.map encodeProduct)
    rw [parseJson_dumps_products l]
  rw [hload]
  exact ⟨rfl, decodeProducts_encode l⟩

end ThirtyMall

namespace ThirtyMall

/-! ## Orchestrators

`monitor.py` `main` (lines 466-522) and `monitor_multi.py` `main` /
`__main__` (lines 326-411), modelled as functions from the extraction
result and the file-system state to the final file-system state and the
process exit code. -/

/-- `{p['id'] for p in previous}` on the loaded JSON value (line 406 of
`monitor.py`, line 358 of `monitor_multi.py`): succeeds on an array of
objects that all have an `id` member (and, vacuously, on an empty string
or empty object, which iterate to nothing); any other value raises
(`TypeError`/`KeyError`), modelled as `Except.error`. -/
def previousIds (j : Json) : Except Unit (List Json) :=
  match j with
  | .arr js =>
    js.mapM (fun e =>
      match e with
      | .obj kvs =>
        match jget kvs kId with
        | some v => Except.ok v
        | none => Except.error ()
      | _ => Except.error ())
  | .str [] => Except.ok []
  | .obj [] => Except.ok []
  | _ => Except.error ()

/-- `monitor.py` `main`: fetch (the `current` parameter), early return
when nothing was extracted, load, diff, notify (no file-system effect;
all notification failures are swallowed inside the notifier), save.
`TimeoutError` and every other `Exception` raised by the body are caught
by `main`'s handlers, which only print; `main`'s return value is
discarded by the bare `main()` call at module level, so the process exit
code is 0 on every path.  Result: (final file-system state, exit
code). -/
def monitor_main (current : List Product) (fs : FS) : FS × Nat :=
  if current.isEmpty then (fs, 0)
  else
    match previousIds (load_previous_products fs) with
    | .error _ => (fs, 0)
    | .ok _ => (save_current_products current fs, 0)

/-- `"search_name"`. -/
def kSearchName : Str :=
  ['s', 'e', 'a', 'r', 'c', 'h', '_', 'n', 'a', 'm', 'e']

/-- The JSON object serialized for one multi-keyword product dict. -/
def encodeProductM (p : ProductM) : Json :=
  .obj [(kId, .str p.id), (kSearchName, .str p.search_name),
    (kTitle, .str p.title), (kPrice, .str p.price), (kLink, .str p.link),
    (kFoundAt, .str p.found_at)]

/-- `save_products` of `monitor_multi.py` (lines 263-270). -/
def save_products (products : List ProductM) (_fs : FS) : FS :=
  .content (dumps (.arr (products.map encodeProductM)))

/-- `monitor_multi.py` `main`: driver setup (`driverOk = false` models a
raising `setup_driver`, caught by the fatal handler → return 1), the
per-search extractions (the `searches` parameter pairs each search name
with its extracted records), `return 1` when no search produced anything
(before any load or save), previous-id computation (raising → fatal
handler → 1), notify, save, `return 0`.  The `__main__` block passes
this value to `sys.exit`. -/
def monitor_multi_main (searches : List (Str × List ProductM)) (fs : FS)
    (driverOk : Bool) : FS × Nat :=
  if !driverOk then (fs, 1)
  else
    let all := (searches.map Prod.snd).join
    if all.isEmpty then (fs, 1)
    else
      match previousIds (load_previous_products_multi fs) with
      | .error _ => (fs, 1)
      | .ok _ => (save_products all fs, 0)

end ThirtyMall

namespace ThirtyMall

/-- **C8.** A run whose extraction yields zero records performs no save:
`monitor.py` returns before touching the snapshot (lines 489-495), and
`monitor_multi.py` returns 1 before its save (lines 350-352); the
snapshot file state is exactly what it was before the run. -/
theorem C8_empty_extraction_no_save (fs : FS) :
    ((monitor_main [] fs).1 = fs) ∧
    (∀ (searches : List (Str × List ProductM)) (driverOk : Bool),
      (∀ s ∈ searches, s.2 = []) →
      (monitor_multi_main searches fs driverOk).1 = fs) := by
  refine ⟨rfl, ?_⟩
  intro searches driverOk hempty
  unfold monitor_multi_main
  cases driverOk with
  | false => rfl
  | true =>
    have hall : (searches.map Prod.snd).join = [] := by
      rw [List.join_eq_nil_iff]
      intro l hl
      obtain ⟨s, hs, rfl⟩ := List.mem_map.mp hl
      exact hempty s hs
    simp [hall]

/-- Witness for C8: one configured search that found nothing. -/
theorem C8_empty_extraction_no_save_witness :
    (monitor_multi_main [(['a'], [])] .missing true).1 = .missing :=
  (C8_empty_extraction_no_save .missing).2 [(['a'], [])] true
    (by decide)

/-- **C9, counterexample.** `monitor.py` exits 0, not 1, when the run
reports the explicit "no products found" condition (its `main` swallows
the condition and every exception, and the module-level call discards the
return value), refuting "exit code 1 whenever ... an explicit 'no
products found' condition is reported". -/
theorem C9_counterexample :
    (monitor_main [] .missing).2 = 0 ∧ (0 : Nat) ≠ 1 :=
  ⟨rfl, by decide⟩

/-- **C9, amended.** `monitor.py` exits 0 on every run — completed runs,
zero-product runs, and runs whose body raised (all are caught); only
`monitor_multi.py` implements the 0/1 policy: its `main` returns 1 when
driver setup fails, when no search produced records, or when the body
raises, and 0 on completed runs, and `sys.exit` receives that value.  (As
committed, the multi-keyword module does not even load — see C2 — so
every actual invocation of it exits 1 before `main` starts.) -/
theorem C9_exit_codes :
    (∀ (current : List Product) (fs : FS),
      (monitor_main current fs).2 = 0) ∧
    (∀ (searches : List (Str × List ProductM)) (fs : FS),
      (monitor_multi_main searches fs false).2 = 1) ∧
    (∀ (searches : List (Str × List ProductM)) (fs : FS),
      (∀ s ∈ searches, s.2 = []) →
      (monitor_multi_main searches fs true).2 = 1) ∧
    (∀ (searches : List (Str × List ProductM)) (fs : FS) (ids : List Json),
      (searches.map Prod.snd).join ≠ [] →
      previousIds (load_previous_products_multi fs) = .ok ids →
      (monitor_multi_main searches fs true).2 = 0) := by
  refine ⟨?_, ?_, ?_, ?_⟩
  · intro current fs
    unfold monitor_main
    by_cases h : current.isEmpty <;> simp [h] <;>
      cases previousIds (load_previous_products fs) <;> simp
  · intro searches fs
    rfl
  · intro searches fs hempty
    unfold monitor_multi_main
    have hall : (searches.map Prod.snd).join = [] := by
      rw [List.join_eq_nil_iff]
      intro l hl
      obtain ⟨s, hs, rfl⟩ := List.mem_map.mp hl
      exact hempty s hs
    simp [hall]
  · intro searches fs ids hne hok
    unfold monitor_multi_main
    simp [List.isEmpty_iff, hne, hok]

/-- Witness for C9 (amended): a no-product multi run exits 1, and a
productive multi run over a missing snapshot exits 0. -/
theorem C9_exit_codes_witness :
    ((monitor_multi_main [(['a'], [])] .missing true).2 = 1) ∧
    ((monitor_multi_main [(['a'], [dfltPM])] .missing true).2 = 0) :=
  ⟨C9_exit_codes.2.2.1 [(['a'], [])] .missing (by decide),
   C9_exit_codes.2.2.2 [(['a'], [dfltPM])] .missing [] (by decide) rfl⟩

end ThirtyMall

namespace ThirtyMall

/-! ## The `SEARCHES` literal of `monitor_multi.py`

Lines 36-56 of `monitor_multi.py` spell the module-level statement
`SEARCHES = [...]` whose list literal contains, between the first and the
second dict, the bare unquoted sentence `Add more searches here.
Examples:`.  The statement is modelled at the token level (comments and
intra-bracket newlines discarded, as CPython's tokenizer does). -/

/-- A Python token (the kinds occurring in the `SEARCHES` statement). -/
inductive PyTok where
  | name (s : Str)
  | str (s : Str)
  | lbrace
  | rbrace
  | lbrack
  | rbrack
  | colon
  | comma
  | dot
  | eq
deriving Repr, DecidableEq

/-- Python's keywords and soft keywords: the only NAME tokens after which
another NAME token can legally follow (or which can follow one) in the
Python grammar. -/
def pyKeywords : List Str :=
  ["False", "None", "True", "and", "as", "assert", "async", "await",
   "break", "class", "continue", "def", "del", "elif", "else", "except",
   "finally", "for", "from", "global", "if", "import", "in", "is",
   "lambda", "nonlocal", "not", "or", "pass", "raise", "return", "try",
   "while", "with", "yield", "match", "case", "type", "_"].map
    String.toList

/-- Two adjacent NAME tokens, neither a (soft) keyword: such a pair
cannot be produced by the Python grammar, so any statement token stream
containing one is rejected by the compiler with `SyntaxError`. -/
def hasAdjacentPlainNames : List PyTok → Bool
  | .name a :: .name b :: rest =>
    (!(pyKeywords.contains a) && !(pyKeywords.contains b)) ||
      hasAdjacentPlainNames (.name b :: rest)
  | _ :: rest => hasAdjacentPlainNames rest
  | [] => false

/-- The token stream of the `SEARCHES = [...]` statement, lines 36-56 of
`monitor_multi.py`, transcribed from the source (comments dropped). -/
def SEARCHES_TOKENS : List PyTok :=
  [.name "SEARCHES".toList, .eq, .lbrack,
   .lbrace,
   .str "name".toList, .colon, .str "버터".toList, .comma,
   .str "url".toList, .colon,
   .str "https://thirtymall.com/search?q=%EB%B2%84%ED%84%B0&categoryNo=796224".toList,
   .comma,
   .str "keyword".toList, .colon, .str "버터".toList, .comma,
   .str "emoji".toList, .colon, .str "🧈".toList,
   .rbrace, .comma,
   .name "Add".toList, .name "more".toList, .name "searches".toList,
   .name "here".toList, .dot, .name "Examples".toList, .colon,
   .lbrace,
   .str "name".toList, .colon, .str "생지".toList, .comma,
   .str "url".toList, .colon,
   .str "https://thirtymall.com/search?q=%EC%83%9D%EC%A7%80&categoryNo=796235".toList,
   .comma,
   .str "keyword".toList, .colon, .str "생지".toList, .comma,
   .str "emoji".toList, .colon, .str "🥐".toList,
   .rbrace, .comma,
   .rbrack]

/-- One observable pipeline effect of a run. -/
inductive Effect where
  | fetch
  | extract
  | diff
  | notify
  | persist
deriving Repr, DecidableEq

/-- Modelled from the spec (the interpreter is an external collaborator,
spec §1): CPython compiles a module completely before executing any of
it, and a module statement whose token stream contains two adjacent
non-keyword NAME tokens cannot be derived from the Python grammar, so
compilation fails with `SyntaxError`; `python monitor_multi.py` then
exits 1 having executed nothing — no fetch, extraction, diff,
notification, or persistence.  Only when the module loads does `main`
run with its effects. -/
def monitor_multi_process (searches : List (Str × List ProductM))
    (fs : FS) (driverOk : Bool) : Nat × List Effect :=
  if hasAdjacentPlainNames SEARCHES_TOKENS then (1, [])
  else
    ((monitor_multi_main searches fs driverOk).2,
      [.fetch, .extract, .diff, .notify, .persist])

end ThirtyMall

namespace ThirtyMall

/-- **C2.** The multi-keyword program never performs any fetch,
extraction, diff, notification, or persistence: its `SEARCHES` literal
contains the bare unquoted sentence `Add more searches here. Examples:`
(adjacent non-keyword NAME tokens `Add` `more`), so loading the module
fails before `main` is entered and every invocation exits with status 1
and an empty effect trace. -/
theorem C2_multi_never_runs (searches : List (Str × List ProductM))
    (fs : FS) (driverOk : Bool) :
    hasAdjacentPlainNames SEARCHES_TOKENS = true ∧
    monitor_multi_process searches fs driverOk = (1, []) := by
  refine ⟨by decide, ?_⟩
  unfold monitor_multi_process
  rw [if_pos (by decide)]

end ThirtyMall
